import Mathlib

/-!
Verification development for the VALD dashboard scraping workflow
(`scrape_vald.py`).  The Python source is shallowly embedded: pure string
manipulation becomes Lean functions on `List Char`/`String`; the browser-driven
capture engine becomes pure functions over explicit environments that record
what the (uncontrolled) browser would have answered at each interaction point
(element visibility, screenshot bytes abstracted to their SHA-256 digest,
whether a Playwright call raised).  Exceptions become `Except Unit`.
-/

namespace Vald

/-! ## Utility: sanitize_filename (scrape_vald.py lines 64-68)

    def sanitize_filename(name):
        name = name.replace("\n", " ").replace("\r", " ")
        name = re.sub(r'[\\/*?:"<>|]', "", name)
        name = re.sub(r"\s+", " ", name)
        return name.strip()
-/

/-- Python whitespace (`\s` of the `re` module with `str` patterns, and the
set stripped by `str.strip()`): ASCII space, tab, LF, CR, VT, FF, the four
information-separator controls, NEL, NBSP and the Unicode space characters. -/
def pyIsSpace (c : Char) : Bool :=
  c.val = 32 || c.val = 9 || c.val = 10 || c.val = 13 || c.val = 11 || c.val = 12 ||
  (28 ≤ c.val && c.val ≤ 31) || c.val = 0x85 || c.val = 0xa0 || c.val = 0x1680 ||
  (0x2000 ≤ c.val && c.val ≤ 0x200a) || c.val = 0x2028 || c.val = 0x2029 ||
  c.val = 0x202f || c.val = 0x205f || c.val = 0x3000

/-- The characters removed by the regex character class in
`re.sub(r'[\\/*?:"<>|]', "", name)`. -/
def badChar (c : Char) : Bool :=
  c = '\\' || c = '/' || c = '*' || c = '?' || c = ':' || c = '"' || c = '<' || c = '>' || c = '|'

/-- `name.replace("\n", " ").replace("\r", " ")`. -/
def replaceNewlines (l : List Char) : List Char :=
  l.map fun c => if c = '\n' || c = '\r' then ' ' else c

/-- `re.sub(r"\s+", " ", name)`: every maximal run of whitespace becomes one
single ASCII space.  The boolean accumulator records whether we are inside a
whitespace run whose replacement space has already been emitted. -/
def collapseWs : Bool → List Char → List Char
  | _, [] => []
  | prevWs, c :: rest =>
    if pyIsSpace c then
      if prevWs then collapseWs true rest else ' ' :: collapseWs true rest
    else c :: collapseWs false rest

/-- `str.strip()`: drop leading and trailing whitespace. -/
def stripWs (l : List Char) : List Char :=
  ((l.dropWhile pyIsSpace).reverse.dropWhile pyIsSpace).reverse

/-- List-level body of `sanitize_filename`. -/
def sanitizeList (l : List Char) : List Char :=
  stripWs (collapseWs false ((replaceNewlines l).filter fun c => !badChar c))

/-- `sanitize_filename` (scrape_vald.py lines 64-68). -/
def sanitize_filename (s : String) : String :=
  String.mk (sanitizeList s.toList)

/-! ### Output shape predicates for the sanitizer -/

/-- No two adjacent whitespace characters. -/
def noAdjWs : List Char → Bool
  | a :: b :: t => !(pyIsSpace a && pyIsSpace b) && noAdjWs (b :: t)
  | _ => true

/-- The first character (if any) is not whitespace. -/
def headNotWs (l : List Char) : Bool :=
  match l.head? with
  | none => true
  | some c => !pyIsSpace c

/-- A string already in sanitized shape: no removed characters, every
whitespace character is a single ASCII space, no two adjacent spaces, and no
leading or trailing whitespace. -/
def cleanList (l : List Char) : Bool :=
  (l.all fun c => !badChar c && (!pyIsSpace c || c = ' ')) &&
    noAdjWs l && headNotWs l && headNotWs l.reverse

/-! ### Lemmas about the sanitizer -/

theorem headNotWs_nil : headNotWs [] = true := rfl

theorem headNotWs_cons {c : Char} {t : List Char} :
    headNotWs (c :: t) = !pyIsSpace c := rfl

theorem mem_collapseWs {c : Char} :
    ∀ (l : List Char) (b : Bool), c ∈ collapseWs b l →
      c = ' ' ∨ (c ∈ l ∧ pyIsSpace c = false)
  | [], b, h => by simp [collapseWs] at h
  | a :: rest, b, h => by
    by_cases ha : pyIsSpace a = true
    · cases b with
      | true =>
        simp only [collapseWs, ha, if_pos] at h
        rcases mem_collapseWs rest true h with h1 | ⟨h2, h3⟩
        · exact Or.inl h1
        · exact Or.inr ⟨List.mem_cons_of_mem _ h2, h3⟩
      | false =>
        simp only [collapseWs, ha, if_pos] at h
        rcases List.mem_cons.1 h with h1 | h1
        · exact Or.inl h1
        · rcases mem_collapseWs rest true h1 with h2 | ⟨h2, h3⟩
          · exact Or.inl h2
          · exact Or.inr ⟨List.mem_cons_of_mem _ h2, h3⟩
    · simp only [collapseWs, ha, if_neg, Bool.not_eq_true] at h
      rcases List.mem_cons.1 h with h1 | h1
      · subst h1
        exact Or.inr ⟨List.mem_cons_self _ _, Bool.not_eq_true _ ▸ ha⟩
      · rcases mem_collapseWs rest false h1 with h2 | ⟨h2, h3⟩
        · exact Or.inl h2
        · exact Or.inr ⟨List.mem_cons_of_mem _ h2, h3⟩

theorem headNotWs_collapseWs_true :
    ∀ l : List Char, headNotWs (collapseWs true l) = true
  | [] => rfl
  | c :: rest => by
    by_cases hc : pyIsSpace c = true
    · simp only [collapseWs, hc, if_pos]
      exact headNotWs_collapseWs_true rest
    · simp [collapseWs, hc, headNotWs_cons]

theorem noAdjWs_cons_of_headNotWs {a : Char} {t : List Char}
    (h1 : headNotWs t = true) (h2 : noAdjWs t = true) : noAdjWs (a :: t) = true := by
  cases t with
  | nil => rfl
  | cons d u =>
    rw [headNotWs_cons] at h1
    simp only [noAdjWs, h2, Bool.and_true, Bool.not_eq_true', Bool.and_eq_false_iff]
    right
    exact by simpa using h1

theorem noAdjWs_cons_of_notWs {a : Char} {t : List Char}
    (ha : pyIsSpace a = false) (h2 : noAdjWs t = true) : noAdjWs (a :: t) = true := by
  cases t with
  | nil => rfl
  | cons d u =>
    simp only [noAdjWs, h2, Bool.and_true, Bool.not_eq_true', Bool.and_eq_false_iff]
    left
    exact ha

theorem noAdjWs_collapseWs :
    ∀ (l : List Char) (b : Bool), noAdjWs (collapseWs b l) = true
  | [], _ => rfl
  | c :: rest, b => by
    by_cases hc : pyIsSpace c = true
    · cases b with
      | true =>
        simp only [collapseWs, hc, if_pos]
        exact noAdjWs_collapseWs rest true
      | false =>
        simp only [collapseWs, hc, if_pos]
        exact noAdjWs_cons_of_headNotWs (headNotWs_collapseWs_true rest)
          (noAdjWs_collapseWs rest true)
    · simp only [collapseWs, hc, if_neg, Bool.not_eq_true]
      exact noAdjWs_cons_of_notWs (Bool.not_eq_true _ ▸ hc) (noAdjWs_collapseWs rest false)

theorem noAdjWs_tail {a : Char} {t : List Char} (h : noAdjWs (a :: t) = true) :
    noAdjWs t = true := by
  cases t with
  | nil => rfl
  | cons d u => exact (Bool.and_eq_true_iff.1 h).2

theorem noAdjWs_append_right :
    ∀ (s t : List Char), noAdjWs (s ++ t) = true → noAdjWs t = true
  | [], t, h => h
  | a :: s, t, h => noAdjWs_append_right s t (noAdjWs_tail h)

theorem noAdjWs_iff_chain :
    ∀ l : List Char,
      noAdjWs l = true ↔ l.Chain' fun a b => (!(pyIsSpace a && pyIsSpace b)) = true
  | [] => by simp [noAdjWs]
  | [a] => by simp [noAdjWs]
  | a :: b :: t => by
    rw [show noAdjWs (a :: b :: t) =
        ((!(pyIsSpace a && pyIsSpace b)) && noAdjWs (b :: t)) from rfl,
      Bool.and_eq_true, List.chain'_cons]
    exact and_congr Iff.rfl (noAdjWs_iff_chain (b :: t))

theorem noAdjWs_reverse_of {l : List Char} (h : noAdjWs l = true) :
    noAdjWs l.reverse = true := by
  rw [noAdjWs_iff_chain] at h ⊢
  rw [List.chain'_reverse]
  refine h.imp fun a b hab => ?_
  rwa [Bool.and_comm] at hab

theorem noAdjWs_dropWhile_of {l : List Char} (h : noAdjWs l = true) :
    noAdjWs (l.dropWhile pyIsSpace) = true := by
  obtain ⟨s, hs⟩ := List.dropWhile_suffix (l := l) pyIsSpace
  rw [← hs] at h
  exact noAdjWs_append_right s _ h

theorem noAdjWs_stripWs_of {l : List Char} (h : noAdjWs l = true) :
    noAdjWs (stripWs l) = true :=
  noAdjWs_reverse_of (noAdjWs_dropWhile_of (noAdjWs_reverse_of (noAdjWs_dropWhile_of h)))

theorem headNotWs_eq_head? {m : List Char} :
    headNotWs m = true ↔ ∀ c, m.head? = some c → pyIsSpace c = false := by
  cases hm : m.head? with
  | none => simp [headNotWs, hm]
  | some c => simp [headNotWs, hm]

theorem headNotWs_dropWhile :
    ∀ l : List Char, headNotWs (l.dropWhile pyIsSpace) = true
  | [] => rfl
  | c :: t => by
    by_cases hc : pyIsSpace c = true
    · rw [List.dropWhile_cons_of_pos (by simpa using hc)]
      exact headNotWs_dropWhile t
    · rw [List.dropWhile_cons_of_neg (by simpa using hc)]
      simp [headNotWs_cons, hc]

theorem mem_stripWs {c : Char} {l : List Char} (h : c ∈ stripWs l) : c ∈ l := by
  unfold stripWs at h
  rw [List.mem_reverse] at h
  have h2 := (List.dropWhile_suffix pyIsSpace).sublist.subset h
  rw [List.mem_reverse] at h2
  exact (List.dropWhile_suffix pyIsSpace).sublist.subset h2

theorem headNotWs_append_left {s r : List Char} (hs : s ≠ [])
    (h : headNotWs (s ++ r) = true) : headNotWs s = true := by
  cases s with
  | nil => exact absurd rfl hs
  | cons d u =>
    rw [List.cons_append, headNotWs_cons] at h
    rwa [headNotWs_cons]

theorem headNotWs_reverse_dropWhile_of :
    ∀ m : List Char, headNotWs m.reverse = true →
      headNotWs (m.dropWhile pyIsSpace).reverse = true
  | [], _ => rfl
  | c :: t, h => by
    by_cases hc : pyIsSpace c = true
    · rw [List.dropWhile_cons_of_pos (by simpa using hc)]
      cases ht : t with
      | nil => subst ht; rfl
      | cons a b =>
        rw [← ht]
        apply headNotWs_reverse_dropWhile_of t
        rw [List.reverse_cons] at h
        exact headNotWs_append_left (by simp [ht]) h
    · rw [List.dropWhile_cons_of_neg (by simpa using hc)]
      exact h

theorem headNotWs_stripWs (l : List Char) : headNotWs (stripWs l) = true := by
  unfold stripWs
  apply headNotWs_reverse_dropWhile_of
  rw [List.reverse_reverse]
  exact headNotWs_dropWhile l

theorem lastNotWs_stripWs (l : List Char) : headNotWs (stripWs l).reverse = true := by
  unfold stripWs
  rw [List.reverse_reverse]
  exact headNotWs_dropWhile _

theorem mem_sanitizeList {c : Char} {l : List Char} (h : c ∈ sanitizeList l) :
    badChar c = false ∧ (pyIsSpace c = true → c = ' ') := by
  unfold sanitizeList at h
  have h1 := mem_stripWs h
  rcases mem_collapseWs _ _ h1 with h2 | ⟨h2, h3⟩
  · subst h2
    exact ⟨rfl, fun _ => rfl⟩
  · rw [List.mem_filter] at h2
    refine ⟨by simpa using h2.2, fun hw => absurd hw (by simp [h3])⟩

theorem cleanList_sanitizeList (l : List Char) : cleanList (sanitizeList l) = true := by
  unfold cleanList
  refine Bool.and_eq_true_iff.2 ⟨Bool.and_eq_true_iff.2 ⟨Bool.and_eq_true_iff.2 ⟨?_, ?_⟩, ?_⟩, ?_⟩
  · rw [List.all_eq_true]
    intro c hc
    obtain ⟨h1, h2⟩ := mem_sanitizeList hc
    rcases hws : pyIsSpace c with _ | _
    · simp [h1, hws]
    · have hc' := h2 hws
      subst hc'
      decide
  · exact noAdjWs_stripWs_of (noAdjWs_collapseWs _ false)
  · exact headNotWs_stripWs _
  · exact lastNotWs_stripWs _

theorem replaceNewlines_eq_self {l : List Char}
    (h : ∀ c ∈ l, pyIsSpace c = true → c = ' ') : replaceNewlines l = l := by
  unfold replaceNewlines
  have hcong : ∀ c ∈ l, (if c = '\n' || c = '\r' then ' ' else c) = id c := by
    intro c hc
    by_cases h1 : c = '\n'
    · subst h1
      exact absurd (h _ hc (by decide)) (by decide)
    · by_cases h2 : c = '\r'
      · subst h2
        exact absurd (h _ hc (by decide)) (by decide)
      · simp [h1, h2]
  rw [List.map_congr_left hcong, List.map_id]

theorem collapseWs_true_eq_false_of_headNotWs {l : List Char}
    (h : headNotWs l = true) : collapseWs true l = collapseWs false l := by
  cases l with
  | nil => rfl
  | cons c t =>
    rw [headNotWs_cons] at h
    have hc : pyIsSpace c = false := by simpa using h
    simp [collapseWs, hc]

theorem collapseWs_eq_self :
    ∀ l : List Char, (∀ c ∈ l, pyIsSpace c = true → c = ' ') →
      noAdjWs l = true → collapseWs false l = l
  | [], _, _ => rfl
  | c :: rest, hall, hadj => by
    have hrest := collapseWs_eq_self rest
      (fun d hd => hall d (List.mem_cons_of_mem _ hd)) (noAdjWs_tail hadj)
    by_cases hc : pyIsSpace c = true
    · have hcsp : c = ' ' := hall c (List.mem_cons_self _ _) hc
      have hhead : headNotWs rest = true := by
        cases rest with
        | nil => rfl
        | cons d u =>
          rw [headNotWs_cons]
          have := (Bool.and_eq_true_iff.1 hadj).1
          simp only [hc, Bool.true_and] at this
          simpa using this
      rw [show collapseWs false (c :: rest) = ' ' :: collapseWs true rest by
        simp [collapseWs, hc]]
      rw [collapseWs_true_eq_false_of_headNotWs hhead, hrest, hcsp]
    · rw [show collapseWs false (c :: rest) = c :: collapseWs false rest by
        simp [collapseWs, hc]]
      rw [hrest]

theorem dropWhile_eq_self_of_headNotWs {l : List Char} (h : headNotWs l = true) :
    l.dropWhile pyIsSpace = l := by
  cases l with
  | nil => rfl
  | cons c t =>
    rw [headNotWs_cons] at h
    exact List.dropWhile_cons_of_neg (by simpa using h)

theorem stripWs_eq_self {l : List Char} (h1 : headNotWs l = true)
    (h2 : headNotWs l.reverse = true) : stripWs l = l := by
  unfold stripWs
  rw [dropWhile_eq_self_of_headNotWs h1, dropWhile_eq_self_of_headNotWs h2,
    List.reverse_reverse]

theorem sanitizeList_eq_self {l : List Char} (h : cleanList l = true) :
    sanitizeList l = l := by
  unfold cleanList at h
  have h1 := Bool.and_eq_true_iff.1 h
  have h2 := Bool.and_eq_true_iff.1 h1.1
  have h3 := Bool.and_eq_true_iff.1 h2.1
  have hall := h3.1
  have hadj := h3.2
  have hhead := h2.2
  have hlast := h1.2
  rw [List.all_eq_true] at hall
  have hws : ∀ c ∈ l, pyIsSpace c = true → c = ' ' := by
    intro c hc hcw
    have := hall c hc
    rcases Bool.and_eq_true_iff.1 this with ⟨_, hb⟩
    rcases Bool.or_eq_true_iff.1 hb with hb1 | hb1
    · exact absurd hcw (by simp [Bool.not_eq_true] at hb1; simp [hb1])
    · exact of_decide_eq_true hb1
  have hbad : ∀ c ∈ l, badChar c = false := by
    intro c hc
    have := hall c hc
    simpa using (Bool.and_eq_true_iff.1 this).1
  unfold sanitizeList
  rw [replaceNewlines_eq_self hws]
  rw [List.filter_eq_self.2 (fun c hc => by simp [hbad c hc])]
  rw [collapseWs_eq_self l hws hadj]
  exact stripWs_eq_self hhead hlast

theorem toList_sanitize (s : String) :
    (sanitize_filename s).toList = sanitizeList s.toList := rfl

/-- No two consecutive ASCII space characters. -/
def noDoubleSpace : List Char → Bool
  | a :: b :: t => !(a = ' ' && b = ' ') && noDoubleSpace (b :: t)
  | _ => true

theorem noDoubleSpace_of_noAdjWs :
    ∀ l : List Char, noAdjWs l = true → noDoubleSpace l = true
  | [], _ => rfl
  | [_], _ => rfl
  | a :: b :: t, h => by
    have h1 := (Bool.and_eq_true_iff.1 h).1
    have h2 := noDoubleSpace_of_noAdjWs (b :: t) (Bool.and_eq_true_iff.1 h).2
    rw [show noDoubleSpace (a :: b :: t)
        = (!(a = ' ' && b = ' ') && noDoubleSpace (b :: t)) from rfl, h2,
      Bool.and_true]
    by_cases ha : a = ' '
    · by_cases hb : b = ' '
      · exfalso
        subst ha
        subst hb
        exact absurd h1 (by decide)
      · simp [hb]
    · simp [ha]

/-- `sanitize_filename` is idempotent. -/
theorem sanitize_idem (s : String) :
    sanitize_filename (sanitize_filename s) = sanitize_filename s := by
  show String.mk (sanitizeList (String.mk (sanitizeList s.toList)).toList)
      = String.mk (sanitizeList s.toList)
  have ht : (String.mk (sanitizeList s.toList)).toList = sanitizeList s.toList := rfl
  rw [ht, sanitizeList_eq_self (cleanList_sanitizeList s.toList)]

/-- C10: `sanitize_filename` is idempotent, and for every input its output
contains none of the characters removed by the regex class, no newline or
carriage-return characters, no run of more than one consecutive space, and no
leading or trailing whitespace — so athlete directory names and
processed-athlete dedup keys (both produced by the sanitizer) are fixed points
of the sanitizer. -/
theorem C10_sanitize_filename_idempotent_and_clean (s : String) :
    sanitize_filename (sanitize_filename s) = sanitize_filename s ∧
    (sanitize_filename s).toList.all
      (fun c => !badChar c && !(c = '\n') && !(c = '\r')) = true ∧
    noDoubleSpace (sanitize_filename s).toList = true ∧
    headNotWs (sanitize_filename s).toList = true ∧
    headNotWs (sanitize_filename s).toList.reverse = true := by
  refine ⟨sanitize_idem s, ?_, ?_, ?_, ?_⟩
  · rw [List.all_eq_true]
    intro c hc
    rw [toList_sanitize] at hc
    obtain ⟨h1, h2⟩ := mem_sanitizeList hc
    have hn : ¬(c = '\n') := fun hq => by
      subst hq
      exact absurd (h2 (by decide)) (by decide)
    have hr : ¬(c = '\r') := fun hq => by
      subst hq
      exact absurd (h2 (by decide)) (by decide)
    simp [h1, hn, hr]
  · rw [toList_sanitize]
    exact noDoubleSpace_of_noAdjWs _ (noAdjWs_stripWs_of (noAdjWs_collapseWs _ false))
  · rw [toList_sanitize]
    exact headNotWs_stripWs _
  · rw [toList_sanitize]
    exact lastNotWs_stripWs _

/-! ## Accordion-count stabilization (scrape_vald.py lines 636-656)

    def _wait_for_accordion_count_to_settle(md, max_wait_ms, stable_for_ms, interval_ms):
        elapsed = 0; stable = 0; prev = -1
        while elapsed < max_wait_ms:
            cnt = md.locator("div.accordion").count()
            if cnt == prev and cnt > 0:
                stable += interval_ms
                if stable >= stable_for_ms: return cnt
            else:
                prev = cnt; stable = 0
            md.page.wait_for_timeout(interval_ms); elapsed += interval_ms
        return md.locator("div.accordion").count()

The environment is the sequence of DOM poll results `counts : Nat → Nat`
(`counts i` is the value of `count()` at the i-th call).  Since `elapsed`
starts at 0 and advances by `interval_ms` per iteration, the loop runs
exactly ceil(max_wait_ms / interval_ms) iterations unless it returns early;
that iteration budget is the structural fuel.  The result pairs the returned
count with the number of `count()` polls performed. -/

def ACCORDION_DISCOVERY_TIMEOUT : Nat := 30000
def ACCORDION_STABLE_FOR_MS : Nat := 1500
def ACCORDION_CHECK_INTERVAL : Nat := 250

def settleGo (counts : Nat → Nat) (stableFor interval : Nat) :
    Nat → Nat → Nat → Int → Nat × Nat
  | 0, i, _, _ => (counts i, i)
  | fuel + 1, i, stable, prev =>
    let cnt := counts i
    if (cnt : Int) = prev ∧ 0 < cnt then
      if stableFor ≤ stable + interval then (cnt, i + 1)
      else settleGo counts stableFor interval fuel (i + 1) (stable + interval) prev
    else settleGo counts stableFor interval fuel (i + 1) 0 (cnt : Int)

/-- `_wait_for_accordion_count_to_settle`, returning (settled count, number of
polls used).  Faithful to the Python loop whenever `interval > 0` (with
`interval = 0` the Python loop would never terminate; all call sites use the
constant 250). -/
def waitForAccordionCountToSettle (counts : Nat → Nat)
    (maxWait stableFor interval : Nat) : Nat × Nat :=
  settleGo counts stableFor interval ((maxWait + interval - 1) / interval) 0 0 (-1)

theorem settleGo_succ_eq (counts : Nat → Nat) (stableFor interval fuel i stable : Nat)
    (prev : Int) :
    settleGo counts stableFor interval (fuel + 1) i stable prev =
      if (counts i : Int) = prev ∧ 0 < counts i then
        if stableFor ≤ stable + interval then (counts i, i + 1)
        else settleGo counts stableFor interval fuel (i + 1) (stable + interval) prev
      else settleGo counts stableFor interval fuel (i + 1) 0 (counts i : Int) := rfl

theorem settleGo_const_stable (c stableFor interval : Nat) (hc : 0 < c) :
    ∀ k fuel stable i, k ≤ fuel → 1 ≤ k → stableFor ≤ stable + k * interval →
      (settleGo (fun _ => c) stableFor interval fuel i stable (c : Int)).1 = c ∧
      (settleGo (fun _ => c) stableFor interval fuel i stable (c : Int)).2 ≤ i + k := by
  intro k
  induction k with
  | zero => intro fuel stable i _ h1 _; exact absurd h1 (by omega)
  | succ k ih =>
    intro fuel stable i hk _ hst
    cases fuel with
    | zero => exact absurd hk (by omega)
    | succ fuel =>
      rw [settleGo_succ_eq, if_pos (And.intro rfl hc)]
      by_cases hdone : stableFor ≤ stable + interval
      · rw [if_pos hdone]
        exact ⟨rfl, by omega⟩
      · rw [if_neg hdone]
        cases Nat.eq_zero_or_pos k with
        | inl hk0 =>
          subst hk0
          exact absurd hst (by simpa using hdone)
        | inr hkpos =>
          have hst' : stableFor ≤ (stable + interval) + k * interval := by
            have : (k + 1) * interval = k * interval + interval := by ring
            omega
          obtain ⟨r1, r2⟩ := ih fuel (stable + interval) (i + 1) (by omega) hkpos hst'
          exact ⟨r1, by omega⟩

/-- C6: if the accordion-subsection count is already stable at a positive
value from the first poll onward, the stabilization loop returns that count
after at most stable_for_ms / interval_ms + 1 polls (7 at the default
1500 ms / 250 ms settings) — strictly fewer than the full 30-second
discovery budget of 120 polls. -/
theorem C6_settle_returns_within_one_stable_window (c : Nat) (hc : 0 < c) :
    (waitForAccordionCountToSettle (fun _ => c) ACCORDION_DISCOVERY_TIMEOUT
        ACCORDION_STABLE_FOR_MS ACCORDION_CHECK_INTERVAL).1 = c ∧
    (waitForAccordionCountToSettle (fun _ => c) ACCORDION_DISCOVERY_TIMEOUT
        ACCORDION_STABLE_FOR_MS ACCORDION_CHECK_INTERVAL).2 ≤
      ACCORDION_STABLE_FOR_MS / ACCORDION_CHECK_INTERVAL + 1 ∧
    ACCORDION_STABLE_FOR_MS / ACCORDION_CHECK_INTERVAL + 1 <
      ACCORDION_DISCOVERY_TIMEOUT / ACCORDION_CHECK_INTERVAL := by
  have hfuel : (ACCORDION_DISCOVERY_TIMEOUT + ACCORDION_CHECK_INTERVAL - 1) /
      ACCORDION_CHECK_INTERVAL = 119 + 1 := by decide
  have hbound : ACCORDION_STABLE_FOR_MS / ACCORDION_CHECK_INTERVAL + 1 = 7 := by decide
  unfold waitForAccordionCountToSettle
  rw [hfuel, hbound, settleGo_succ_eq]
  rw [if_neg (by
    rintro ⟨h1, _⟩
    omega)]
  simp only [Nat.zero_add]
  obtain ⟨r1, r2⟩ := settleGo_const_stable c ACCORDION_STABLE_FOR_MS
    ACCORDION_CHECK_INTERVAL hc 6 119 0 1 (by omega) (by omega) (by decide)
  exact ⟨r1, by omega, by decide⟩

/-- Witness for C6 at the concrete stable count 6. -/
theorem C6_settle_witness :
    0 < 6 ∧
    ((waitForAccordionCountToSettle (fun _ => 6) ACCORDION_DISCOVERY_TIMEOUT
        ACCORDION_STABLE_FOR_MS ACCORDION_CHECK_INTERVAL).1 = 6 ∧
    (waitForAccordionCountToSettle (fun _ => 6) ACCORDION_DISCOVERY_TIMEOUT
        ACCORDION_STABLE_FOR_MS ACCORDION_CHECK_INTERVAL).2 ≤
      ACCORDION_STABLE_FOR_MS / ACCORDION_CHECK_INTERVAL + 1 ∧
    ACCORDION_STABLE_FOR_MS / ACCORDION_CHECK_INTERVAL + 1 <
      ACCORDION_DISCOVERY_TIMEOUT / ACCORDION_CHECK_INTERVAL) :=
  ⟨by decide, C6_settle_returns_within_one_stable_window 6 (by decide)⟩

/-! ## Tile locator (scrape_vald.py lines 164-244)

`_scan_for_visibility(page, cand, steps=7, pause_ms=280)` scrolls the page
step by step, re-checking visibility of the candidate before each scroll, and
makes one final check after returning to the top.  The environment
`visible : Nat → Bool` answers the i-th visibility check
(`cand.count() > 0 and cand.first.is_visible()`).  The result pairs the
outcome (check index at which the tile became visible, if any) with the
number of scroll steps performed.

`find_countermovement_jump_tile` runs four selector strategies (PASS A-D) in
order, scanning for each; `vis p i` answers the i-th check of pass p. -/

def scanLoop (visible : Nat → Bool) : Nat → Nat → Option Nat × Nat
  | i, 0 => (none, 0)
  | i, r + 1 =>
    if visible i then (some i, 0)
    else
      let (f, s) := scanLoop visible (i + 1) r
      (f, s + 1)

def scanForVisibility (visible : Nat → Bool) (steps : Nat) : Option Nat × Nat :=
  let n := max 1 steps
  match scanLoop visible 0 n with
  | (some i, s) => (some i, s)
  | (none, s) => (if visible n then some n else none, s)

def fcjGo (vis : Nat → Nat → Bool) : List Nat → Option (Nat × Nat) × Nat
  | [] => (none, 0)
  | p :: rest =>
    match scanForVisibility (vis p) 7 with
    | (some i, s) => (some (p, i), s)
    | (none, s) =>
      let (f, s2) := fcjGo vis rest
      (f, s + s2)

/-- `find_countermovement_jump_tile`: four locator passes, each scanned with a
scroll budget of 7; returns the (pass, check) of the first visible match with
the total number of scroll steps, or `none` with the scrolls spent. -/
def find_countermovement_jump_tile (vis : Nat → Nat → Bool) :
    Option (Nat × Nat) × Nat :=
  fcjGo vis [0, 1, 2, 3]

theorem scanLoop_scrolls_le (visible : Nat → Bool) :
    ∀ r i, (scanLoop visible i r).2 ≤ r := by
  intro r
  induction r with
  | zero => intro i; simp [scanLoop]
  | succ r ih =>
    intro i
    rw [scanLoop]
    by_cases h : visible i = true
    · simp [h]
    · simp only [h, Bool.false_eq_true, if_false]
      have := ih (i + 1)
      omega

theorem scanForVisibility_scrolls_le (visible : Nat → Bool) (steps : Nat) :
    (scanForVisibility visible steps).2 ≤ max 1 steps := by
  rcases h : scanLoop visible 0 (max 1 steps) with ⟨f, s⟩
  have hs : s ≤ max 1 steps := by
    have := scanLoop_scrolls_le visible (max 1 steps) 0
    rw [h] at this
    exact this
  cases f with
  | none => simp [scanForVisibility, h, hs]
  | some i => simp [scanForVisibility, h, hs]

theorem scanLoop_never_visible (visible : Nat → Bool)
    (hv : ∀ i, visible i = false) : ∀ r i, scanLoop visible i r = (none, r) := by
  intro r
  induction r with
  | zero => intro i; rfl
  | succ r ih =>
    intro i
    rw [scanLoop]
    simp only [hv i, Bool.false_eq_true, if_false, ih (i + 1)]

theorem scanForVisibility_never_visible (visible : Nat → Bool)
    (hv : ∀ i, visible i = false) (steps : Nat) :
    scanForVisibility visible steps = (none, max 1 steps) := by
  simp [scanForVisibility, scanLoop_never_visible visible hv, hv]

/-- C8: the tile locator always terminates within the scroll budget — at most
7 scroll steps per selector strategy over the fixed list of 4 strategies (28
in total) — and on a page where the tile never becomes visible it performs
exactly those 28 scrolls and returns the absent result rather than looping
or raising. -/
theorem C8_tile_locator_bounded_scroll (vis : Nat → Nat → Bool) :
    (∀ p, (scanForVisibility (vis p) 7).2 ≤ 7) ∧
    (find_countermovement_jump_tile vis).2 ≤ 4 * 7 ∧
    ((∀ p i, vis p i = false) →
      find_countermovement_jump_tile vis = (none, 4 * 7)) := by
  refine ⟨fun p => by
    have := scanForVisibility_scrolls_le (vis p) 7
    omega, ?_, ?_⟩
  · unfold find_countermovement_jump_tile
    have hstep : ∀ (l : List Nat),
        (fcjGo vis l).2 ≤ 7 * l.length := by
      intro l
      induction l with
      | nil => simp [fcjGo]
      | cons p rest ih =>
        rcases h : scanForVisibility (vis p) 7 with ⟨f, s⟩
        have hs : s ≤ 7 := by
          have h7 := scanForVisibility_scrolls_le (vis p) 7
          rw [h] at h7
          omega
        cases f with
        | some i =>
          simp only [fcjGo, h, List.length_cons]
          omega
        | none =>
          rcases h2 : fcjGo vis rest with ⟨f2, s2⟩
          have ihs : s2 ≤ 7 * rest.length := by
            rw [h2] at ih
            exact ih
          simp only [fcjGo, h, h2, List.length_cons]
          omega
    have h28 := hstep [0, 1, 2, 3]
    simp only [List.length_cons, List.length_nil] at h28
    omega
  · intro hv
    have e0 := scanForVisibility_never_visible (vis 0) (hv 0) 7
    have e1 := scanForVisibility_never_visible (vis 1) (hv 1) 7
    have e2 := scanForVisibility_never_visible (vis 2) (hv 2) 7
    have e3 := scanForVisibility_never_visible (vis 3) (hv 3) 7
    simp [find_countermovement_jump_tile, fcjGo, e0, e1, e2, e3]

/-- Witness for C8 on the everywhere-invisible page. -/
theorem C8_tile_locator_witness :
    ((fun _ _ => false : Nat → Nat → Bool) = fun _ _ => false) ∧
    find_countermovement_jump_tile (fun _ _ => false) = (none, 4 * 7) :=
  ⟨rfl, (C8_tile_locator_bounded_scroll (fun _ _ => false)).2.2 fun _ _ => rfl⟩

/-! ## Metric selection confirmation (scrape_vald.py lines 468-517)

`select_metric_and_wait(label)` — modelled from the point where the menu
entry has been clicked (lines 490-517):

    btn = tile.locator(...).first; span = btn.locator("span.truncate").first
    try:
        expect(span).to_contain_text(re.compile(re.escape(token), re.I), timeout=timeout_ms)
    except Exception:
        page.wait_for_timeout(800)
        expect(span).to_contain_text(re.compile(re.escape(token), re.I), timeout=3000)
    deadline = time.time() + timeout_ms/1000
    while time.time() < deadline:
        chart_after = _get_chart_locator(tile)
        try:
            fp_after = _fingerprint(chart_after)
            if fp_after != fp_before: break
        except Exception: pass
        page.wait_for_timeout(150)
    page.wait_for_timeout(MENU_AFTER_SELECT)

`spanText1`/`spanText2` are the button label texts the two `expect` windows
settle on; the second `expect` raises (propagating out of the function) when
the token is still absent.  `fpAt i` is the chart fingerprint observed at the
i-th poll of the while loop, whose iteration budget is `fpFuel`; the loop has
no effect on control flow beyond its own duration.  The returned value is the
index at which the fingerprint loop stopped. -/

/-- Does `needle` occur at the head of `hay`? -/
def matchesHere : List Char → List Char → Bool
  | [], _ => true
  | _ :: _, [] => false
  | a :: as, b :: bs => (a = b) && matchesHere as bs

/-- Does `needle` occur contiguously anywhere in `hay`? -/
def hasSubstr (needle : List Char) : List Char → Bool
  | [] => needle.isEmpty
  | b :: bs => matchesHere needle (b :: bs) || hasSubstr needle bs

/-- Substring test, standing for Python's `needle in hay`. -/
def strContainsSubstr (needle hay : String) : Bool :=
  hasSubstr needle.toList hay.toList

/-- ASCII lowercase (the tokens involved are ASCII). -/
def charToLower (c : Char) : Char :=
  if 65 ≤ c.val && c.val ≤ 90 then Char.ofNat (c.toNat + 32) else c

/-- Case-insensitive containment, standing for searching
`re.compile(re.escape(token), re.I)` in a text. -/
def containsCI (token text : String) : Bool :=
  hasSubstr (token.toList.map charToLower) (text.toList.map charToLower)

/-- Token derivation of `select_metric_and_wait` (lines 469-477). -/
def shortToken (label : String) : String :=
  if strContainsSubstr "Ankle Dorsiflexion" label then "Ankle Dorsiflexion"
  else if strContainsSubstr "Hip Adduction" label then "Hip Adduction"
  else if strContainsSubstr "Peak Knee Flexion" label then "Peak Knee Flexion"
  else String.mk (label.toList.take 24)

structure SelectEnv where
  spanText1 : String
  spanText2 : String
  fpBefore : Nat
  fpAt : Nat → Nat

/-- The fingerprint-change polling loop: returns the poll index at which it
stopped (fingerprint differing from the before-selection value), or the full
budget if the fingerprint never changed. -/
def fpWaitIdx (before : Nat) (fpAt : Nat → Nat) : Nat → Nat → Nat
  | i, 0 => i
  | i, r + 1 => if fpAt i ≠ before then i else fpWaitIdx before fpAt (i + 1) r

/-- Post-click part of `select_metric_and_wait`: the label-text confirmation
is mandatory (its second failure raises); the fingerprint wait runs afterwards
and cannot fail. -/
def select_metric_and_wait (label : String) (e : SelectEnv) (fpFuel : Nat) :
    Except Unit Nat :=
  let token := shortToken label
  if containsCI token e.spanText1 then .ok (fpWaitIdx e.fpBefore e.fpAt 0 fpFuel)
  else if containsCI token e.spanText2 then .ok (fpWaitIdx e.fpBefore e.fpAt 0 fpFuel)
  else .error ()

theorem fpWaitIdx_unchanged (before : Nat) (fpAt : Nat → Nat)
    (h : ∀ j, fpAt j = before) : ∀ r i, fpWaitIdx before fpAt i r = i + r := by
  intro r
  induction r with
  | zero => intro i; rfl
  | succ r ih =>
    intro i
    rw [fpWaitIdx]
    simp only [h i, ne_eq, not_true_eq_false, if_false, ih (i + 1)]
    omega

/-- C5 counterexample: the claim says the first of the two confirmation
signals to succeed suffices and that even with no confirmation at all the
selection step completes normally — i.e. selection never raises.  But when
the button text never comes to contain the token (both `expect` calls fail),
`select_metric_and_wait` raises even though the chart fingerprint did change
(signal (b) succeeded: fpAt 0 = 1 differs from fpBefore = 0). -/
theorem C5_counterexample :
    ¬ (∀ (label : String) (e : SelectEnv) (fpFuel : Nat),
        (select_metric_and_wait label e fpFuel).isOk = true) := by
  intro h
  have hx := h "Avg Peak Knee Flexion - Left & Right"
    { spanText1 := "", spanText2 := "", fpBefore := 0, fpAt := fun _ => 1 } 5
  have hy : (select_metric_and_wait "Avg Peak Knee Flexion - Left & Right"
      { spanText1 := "", spanText2 := "", fpBefore := 0, fpAt := fun _ => 1 }
      5).isOk = false := by decide
  rw [hx] at hy
  exact absurd hy (by decide)

/-- C5 amended: after clicking the menu entry the engine first requires the
label-text confirmation — selection completes if and only if the short token
derived from the label appears (case-insensitively) in the dropdown button
text during one of the two expect windows, and raises otherwise (aborting
that label attempt, which the caller catches and retries); the fingerprint
signal never influences completion, and in particular a fingerprint that
never changes merely makes the wait loop run out its budget before capture
proceeds. -/
theorem C5_text_mandatory_fingerprint_best_effort (label : String)
    (e : SelectEnv) (fpFuel : Nat) :
    ((select_metric_and_wait label e fpFuel).isOk =
      (containsCI (shortToken label) e.spanText1 ||
        containsCI (shortToken label) e.spanText2)) ∧
    (∀ b : Nat, ∀ g : Nat → Nat,
      (select_metric_and_wait label { e with fpBefore := b, fpAt := g }
          fpFuel).isOk = (select_metric_and_wait label e fpFuel).isOk) ∧
    ((∀ j, e.fpAt j = e.fpBefore) →
      containsCI (shortToken label) e.spanText1 = true →
      select_metric_and_wait label e fpFuel = .ok fpFuel) := by
  refine ⟨?_, ?_, ?_⟩
  · unfold select_metric_and_wait
    by_cases h1 : containsCI (shortToken label) e.spanText1 = true
    · simp [h1, Except.isOk, Except.toBool]
    · by_cases h2 : containsCI (shortToken label) e.spanText2 = true
      · simp [h1, h2, Except.isOk, Except.toBool]
      · simp [h1, h2, Except.isOk, Except.toBool]
  · intro b g
    unfold select_metric_and_wait
    by_cases h1 : containsCI (shortToken label) e.spanText1 = true
    · simp [h1, Except.isOk, Except.toBool]
    · by_cases h2 : containsCI (shortToken label) e.spanText2 = true
      · simp [h1, h2, Except.isOk, Except.toBool]
      · simp [h1, h2, Except.isOk, Except.toBool]
  · intro hfp h1
    unfold select_metric_and_wait
    simp only [h1, if_true]
    rw [fpWaitIdx_unchanged e.fpBefore e.fpAt hfp fpFuel 0]
    norm_num

/-- Witness for C5's amended theorem: text confirmed in the first window, the
fingerprint never changes, and selection still completes after the full
fingerprint budget. -/
theorem C5_select_witness :
    select_metric_and_wait "Avg Peak Knee Flexion - Left & Right"
      { spanText1 := "Peak Knee Flexion", spanText2 := "",
        fpBefore := 0, fpAt := fun _ => 0 } 66 = .ok 66 :=
  (C5_text_mandatory_fingerprint_best_effort
      "Avg Peak Knee Flexion - Left & Right"
      { spanText1 := "Peak Knee Flexion", spanText2 := "",
        fpBefore := 0, fpAt := fun _ => 0 } 66).2.2
    (fun _ => rfl) (by decide)

/-! ## Capture state: files, counters, events

The per-athlete capture session is modelled as pure state: `Counters` is the
`defaultdict(int)` of per-tile-label file counters; a written file is recorded
as a `FileRec` (its label, the counter index baked into its
`{label}_{idx:03d}.png` name, and the SHA-256 digest of its bytes); the log
output is a list of `Ev` events.  Functions return the files/events they
append (deltas), which callers concatenate. -/

abbrev Counters := String → Nat

/-- `counters[pfx] += 1`. -/
def bump (c : Counters) (pfx : String) : Counters :=
  fun q => if q = pfx then c pfx + 1 else c q

structure FileRec where
  pfx : String
  idx : Nat
  digest : Nat
deriving DecidableEq, Repr

inductive Ev where
  | wrote (pfx : String) (idx : Nat)
  | dupSkip (pfx : String)
  | select (lab : String) (ok : Bool)
  | bounce (alt lab : String)
  | skipLabel (title lab : String)
  | retryLabel (lab : String)
  | skipSection (pfx : String) (i : Nat)
  | noAccordions (pfx : String)
  | stepDone (label : String) (n : Nat)
  | stepWarn (label : String)
deriving DecidableEq, Repr

/-- `title.replace(" ", "_")`. -/
def spaceToUnderscore (s : String) : String :=
  String.mk (s.toList.map fun ch => if ch = ' ' then '_' else ch)

/-! ## Metric-switch capture engine (scrape_vald.py lines 411-616)

`screenshot_tile_unique(t, prefix, seen_hashes, max_dupe_retries=2)` takes up
to 3 screenshots; a shot whose digest is already in `seen_hashes` writes
nothing and consumes no counter index; the first fresh digest is written under
the next counter index and recorded.  The environment supplies the digest of
each attempted screenshot. -/

def stuGo (pfx : String) :
    List Nat → List Nat → Counters →
      Bool × List Nat × Counters × List FileRec × List Ev
  | [], seen, c => (false, seen, c, [], [])
  | d :: ds, seen, c =>
    if d ∈ seen then
      let r := stuGo pfx ds seen c
      (r.1, r.2.1, r.2.2.1, r.2.2.2.1, Ev.dupSkip pfx :: r.2.2.2.2)
    else
      (true, d :: seen, bump c pfx, [⟨pfx, c pfx + 1, d⟩],
        [Ev.wrote pfx (c pfx + 1)])

/-- `screenshot_tile_unique` with the default `max_dupe_retries = 2`
(3 loop iterations). -/
def screenshot_tile_unique (pfx : String) (shots : List Nat) (seen : List Nat)
    (c : Counters) : Bool × List Nat × Counters × List FileRec × List Ev :=
  stuGo pfx (shots.take 3) seen c

/-- Environment of one attempt of the per-label retry loop: whether
`select_metric_and_wait` completed (false = it raised, which the loop's
`except` catches), and the digests produced by the screenshot attempts inside
`screenshot_tile_unique`. -/
structure AttemptEnv where
  selOk : Bool
  shotDigests : List Nat

/-- The `for attempt in range(1, 4)` body of `capture_humantrak_card`
(lines 558-582): select, screenshot-unique, break on success, otherwise
bounce (select an alternative metric, re-select the label; any exception in
the bounce is swallowed) and retry.  The bounce touches only the browser, not
the counters/seen/files state. -/
def attemptLoop (labels : List String) (lab pfx : String) :
    List AttemptEnv → List Nat → Counters →
      Bool × List Nat × Counters × List FileRec × List Ev
  | [], seen, c => (false, seen, c, [], [])
  | a :: rest, seen, c =>
    if a.selOk then
      let r := screenshot_tile_unique pfx a.shotDigests seen c
      if r.1 then
        (true, r.2.1, r.2.2.1, r.2.2.2.1, Ev.select lab true :: r.2.2.2.2)
      else
        let btr : List Ev :=
          match (labels.filter fun x => x ≠ lab).head? with
          | some alt => [Ev.bounce alt lab]
          | none => []
        let r2 := attemptLoop labels lab pfx rest r.2.1 r.2.2.1
        (r2.1, r2.2.1, r2.2.2.1, r.2.2.2.1 ++ r2.2.2.2.1,
          Ev.select lab true :: r.2.2.2.2 ++ btr ++ r2.2.2.2.2)
    else
      let r2 := attemptLoop labels lab pfx rest seen c
      (r2.1, r2.2.1, r2.2.2.1, r2.2.2.2.1,
        Ev.select lab false :: Ev.retryLabel lab :: r2.2.2.2.2)

/-- One label of `capture_humantrak_card`: at most 3 attempts, then the
`(skip)` log when none succeeded.  Returns the count contributed (0 or 1). -/
def captureLabel (labels : List String) (title lab pfx : String)
    (envs : List AttemptEnv) (seen : List Nat) (c : Counters) :
    Nat × List Nat × Counters × List FileRec × List Ev :=
  let r := attemptLoop labels lab pfx (envs.take 3) seen c
  if r.1 then (1, r.2.1, r.2.2.1, r.2.2.2.1, r.2.2.2.2)
  else (0, r.2.1, r.2.2.1, r.2.2.2.1,
    r.2.2.2.2 ++ [Ev.skipLabel title lab])

/-- The `for label in labels_to_capture` loop; `env k` is the attempt
environment of the k-th label. -/
def cardLoop (labels : List String) (title pfx : String)
    (env : Nat → List AttemptEnv) :
    List String → Nat → List Nat → Counters →
      Nat × Counters × List FileRec × List Ev
  | [], _, _, c => (0, c, [], [])
  | lab :: rest, k, seen, c =>
    let r := captureLabel labels title lab pfx (env k) seen c
    let r2 := cardLoop labels title pfx env rest (k + 1) r.2.1 r.2.2.1
    (r.1 + r2.1, r2.2.1, r.2.2.2.1 ++ r2.2.2.1, r.2.2.2.2 ++ r2.2.2.2)

/-- Environment of one `capture_humantrak_card` call: whether the tile was
found by the initial locator (`expect(tile).to_be_visible` raises otherwise,
before any state is touched), and per-label attempt environments. -/
structure CardEnv where
  tileFound : Bool
  attempts : Nat → List AttemptEnv

structure CapOut where
  res : Except Unit Nat
  ctr : Counters
  files : List FileRec
  trace : List Ev

/-- `capture_humantrak_card` (with `include_base = False`, as called by the
orchestrator): fresh `seen_hashes` per call, one prefix per card. -/
def capture_humantrak_card (title : String) (labels : List String)
    (ce : CardEnv) (c : Counters) : CapOut :=
  if ce.tileFound then
    let r := cardLoop labels title (spaceToUnderscore title) ce.attempts labels 0 [] c
    ⟨.ok r.1, r.2.1, r.2.2.1, r.2.2.2⟩
  else ⟨.error (), c, [], []⟩

/-- `capture_humantrak_card_any` (lines 594-616): try title candidates until
one call does not raise; if all raise, re-raise the last error. -/
def captureAnyGo (labels : List String) :
    List (String × CardEnv) → Bool → Counters → CapOut
  | [], err, c => ⟨if err then .error () else .ok 0, c, [], []⟩
  | (title, ce) :: rest, _, c =>
    let r := capture_humantrak_card title labels ce c
    match r.res with
    | .ok t => ⟨.ok t, r.ctr, r.files, r.trace⟩
    | .error _ =>
      let r2 := captureAnyGo labels rest true r.ctr
      ⟨r2.res, r2.ctr, r.files ++ r2.files, r.trace ++ r2.trace⟩

/-- The src/src/scripts variant `bounce_then_reselect` (lines 588-600 there):
its final re-selection call `select_metric_and_wait(page, desired_label)`
omits the tile argument, so whenever an alternative label exists the final
re-selection raises `TypeError` (modelled as `.error`), which the attempt
loop's `except` then catches. -/
def bounce_then_reselect_variant (alternatives : List String)
    (desiredLabel : String) : Except Unit Unit :=
  match (alternatives.filter fun x => x ≠ desiredLabel).head? with
  | none => .ok ()
  | some _ => .error ()

/-! ## Modal capture engine (scrape_vald.py lines 620-700) -/

/-- Outcome of one accordion-subsection capture iteration: an exception
before the counter increment (`scroll_into_view_if_needed` or the settle
wait), an exception at `section.screenshot()` — which happens after
`counters[prefix] += 1` — or a successful write of bytes with the given
digest. -/
inductive SectionOutcome where
  | failEarly
  | failAtShot
  | ok (digest : Nat)
deriving DecidableEq, Repr

/-- Outcome of the zero-accordion fallback path (lines 660-666):
`expect(modal).to_be_visible` raising (before the increment),
`modal.screenshot()` raising (after the increment), or a successful write. -/
inductive FallbackOutcome where
  | expectFail
  | shotFail
  | ok (digest : Nat)
deriving DecidableEq, Repr

structure ModalEnv where
  counts : Nat → Nat
  fallback : FallbackOutcome
  sections : Nat → SectionOutcome

/-- The stabilized accordion count this modal environment produces. -/
def stableCnt (m : ModalEnv) : Nat :=
  (waitForAccordionCountToSettle m.counts ACCORDION_DISCOVERY_TIMEOUT
    ACCORDION_STABLE_FOR_MS ACCORDION_CHECK_INTERVAL).1

/-- The `for i in range(total)` capture loop over accordion sections
(lines 677-700).  Exceptions inside an iteration are caught and logged as a
skip; a `failAtShot` has already consumed a counter index. -/
def sectionsLoop (pfx : String) (secs : Nat → SectionOutcome) :
    List Nat → Counters → Nat × Counters × List FileRec × List Ev
  | [], c => (0, c, [], [])
  | i :: rest, c =>
    match secs i with
    | .failEarly =>
      let r := sectionsLoop pfx secs rest c
      (r.1, r.2.1, r.2.2.1, Ev.skipSection pfx i :: r.2.2.2)
    | .failAtShot =>
      let r := sectionsLoop pfx secs rest (bump c pfx)
      (r.1, r.2.1, r.2.2.1, Ev.skipSection pfx i :: r.2.2.2)
    | .ok d =>
      let r := sectionsLoop pfx secs rest (bump c pfx)
      (r.1 + 1, r.2.1, ⟨pfx, c pfx + 1, d⟩ :: r.2.2.1,
        Ev.wrote pfx (c pfx + 1) :: r.2.2.2)

/-- `screenshot_modal_accordions` (lines 620-700): settle the accordion
count; zero sections → one whole-modal fallback shot (whose `expect` and
`screenshot` calls are not wrapped, so their exceptions propagate); otherwise
capture each section with per-section error isolation. -/
def screenshot_modal_accordions (env : ModalEnv) (pfx : String)
    (c : Counters) : CapOut :=
  let cnt := stableCnt env
  if cnt = 0 then
    match env.fallback with
    | .expectFail => ⟨.error (), c, [], [Ev.noAccordions pfx]⟩
    | .shotFail => ⟨.error (), bump c pfx, [], [Ev.noAccordions pfx]⟩
    | .ok d =>
      ⟨.ok 1, bump c pfx, [⟨pfx, c pfx + 1, d⟩],
        [Ev.noAccordions pfx, Ev.wrote pfx (c pfx + 1)]⟩
  else
    let r := sectionsLoop pfx env.sections (List.range cnt) c
    ⟨.ok r.1, r.2.1, r.2.2.1, r.2.2.2⟩

/-! ## Athlete capture orchestrator (scrape_vald.py lines 720-786) -/

/-- Environment of one modal checklist step: whether the opener produced a
visible modal (tile found and a click strategy worked), the modal capture
environment, and whether `close_modal`'s unguarded part raised. -/
structure ModalStepEnv where
  openOk : Bool
  modal : ModalEnv
  closeOk : Bool

/-- One `try: opener(); screenshot_modal_accordions(...); close_modal(...)`
step of the orchestrator loop, with its blanket `except` producing the
`(warn)` log. -/
def modalStep (label : String) (e : ModalStepEnv) (c : Counters) :
    Counters × List FileRec × List Ev :=
  if e.openOk then
    let r := screenshot_modal_accordions e.modal label c
    match r.res with
    | .ok t =>
      if e.closeOk then (r.ctr, r.files, r.trace ++ [Ev.stepDone label t])
      else (r.ctr, r.files, r.trace ++ [Ev.stepWarn label])
    | .error _ => (r.ctr, r.files, r.trace ++ [Ev.stepWarn label])
  else (c, [], [Ev.stepWarn label])

/-- The wrapped `capture_humantrak_card` step for Overhead Squat. -/
def cardStep (title : String) (labels : List String) (ce : CardEnv)
    (c : Counters) : Counters × List FileRec × List Ev :=
  let r := capture_humantrak_card title labels ce c
  match r.res with
  | .ok t => (r.ctr, r.files, r.trace ++ [Ev.stepDone title t])
  | .error _ => (r.ctr, r.files, r.trace ++ [Ev.stepWarn title])

/-- The wrapped `capture_humantrak_card_any` step for Lunge/Lunges. -/
def anyStep (stepLabel : String) (labels : List String)
    (cands : List (String × CardEnv)) (c : Counters) :
    Counters × List FileRec × List Ev :=
  let r := captureAnyGo labels cands false c
  match r.res with
  | .ok t => (r.ctr, r.files, r.trace ++ [Ev.stepDone stepLabel t])
  | .error _ => (r.ctr, r.files, r.trace ++ [Ev.stepWarn stepLabel])

/-- The fixed metric labels of the HumanTrak cards (lines 765-769). -/
def ht_labels : List String :=
  ["Avg Peak Knee Flexion - Left & Right",
   "Avg Hip Adduction at Peak Knee Flexion - Left & Right",
   "Avg Ankle Dorsiflexion at Peak Knee Flexion - Left & Right"]

/-- Every counter key the orchestrator can touch (the four modal labels and
the three possible card titles with spaces replaced); `sum(counters.values())`
equals the sum of the counters over these keys. -/
def checkKeys : List String :=
  ["Countermovement_Jump", "Nordic", "20yd_Sprint", "5-0-5_Drill",
   "Overhead_Squat", "Lunge", "Lunges"]

/-- The labels of the six checklist steps, as logged. -/
def checklistLabels : List String :=
  ["Countermovement_Jump", "Nordic", "20yd_Sprint", "5-0-5_Drill",
   "Overhead Squat", "Lunge/Lunges"]

structure AthleteEnv where
  cmj : ModalStepEnv
  nordic : ModalStepEnv
  sprint : ModalStepEnv
  drill : ModalStepEnv
  ohs : CardEnv
  lunge : CardEnv
  lunges : CardEnv

structure RunOut where
  total : Nat
  ctr : Counters
  files : List FileRec
  trace : List Ev

/-- Step 1 of the checklist: the Countermovement Jump modal, starting from
the fresh `defaultdict(int)` created at the top of `take_screens_for_athlete`
(line 725). -/
def stage1 (env : AthleteEnv) : Counters × List FileRec × List Ev :=
  modalStep "Countermovement_Jump" env.cmj (fun _ => 0)

def stage2 (env : AthleteEnv) : Counters × List FileRec × List Ev :=
  modalStep "Nordic" env.nordic (stage1 env).1

def stage3 (env : AthleteEnv) : Counters × List FileRec × List Ev :=
  modalStep "20yd_Sprint" env.sprint (stage2 env).1

def stage4 (env : AthleteEnv) : Counters × List FileRec × List Ev :=
  modalStep "5-0-5_Drill" env.drill (stage3 env).1

def stage5 (env : AthleteEnv) : Counters × List FileRec × List Ev :=
  cardStep "Overhead Squat" ht_labels env.ohs (stage4 env).1

def stage6 (env : AthleteEnv) : Counters × List FileRec × List Ev :=
  anyStep "Lunge/Lunges" ht_labels
    [("Lunge", env.lunge), ("Lunges", env.lunges)] (stage5 env).1

/-- `take_screens_for_athlete` (lines 720-786): a fresh `defaultdict(int)`
counter map is created for the athlete, the four modal tiles then the two
HumanTrak cards are each attempted under a blanket `except`, and the total
`sum(counters.values())` is reported. -/
def take_screens_for_athlete (env : AthleteEnv) : RunOut :=
  { total := (checkKeys.map (stage6 env).1).sum
    ctr := (stage6 env).1
    files := (stage1 env).2.1 ++ (stage2 env).2.1 ++ (stage3 env).2.1 ++
      (stage4 env).2.1 ++ (stage5 env).2.1 ++ (stage6 env).2.1
    trace := (stage1 env).2.2 ++ (stage2 env).2.2 ++ (stage3 env).2.2 ++
      (stage4 env).2.2 ++ (stage5 env).2.2 ++ (stage6 env).2.2 }

/-- A multi-athlete run: the main loop calls `take_screens_for_athlete` once
per athlete, and the counter map is created inside that call. -/
def runAthletes (envs : List AthleteEnv) : List RunOut :=
  envs.map take_screens_for_athlete

/-! ## Team walker row handling (scrape_vald.py lines 1237-1268) -/

/-- The Unicode decimal-digit ranges (general category Nd), the character
class Python's str-pattern `\d` matches: 62 closed ranges covering 660 code
points, from ASCII 0-9 through the Indic, south-east Asian, fullwidth,
mathematical and supplementary-plane digit blocks (CPython 3.11 Unicode
tables). -/
def ndDigitRanges : List (UInt32 × UInt32) :=
  [(0x30, 0x39), (0x660, 0x669), (0x6f0, 0x6f9), (0x7c0, 0x7c9),
   (0x966, 0x96f), (0x9e6, 0x9ef), (0xa66, 0xa6f), (0xae6, 0xaef),
   (0xb66, 0xb6f), (0xbe6, 0xbef), (0xc66, 0xc6f), (0xce6, 0xcef),
   (0xd66, 0xd6f), (0xde6, 0xdef), (0xe50, 0xe59), (0xed0, 0xed9),
   (0xf20, 0xf29), (0x1040, 0x1049), (0x1090, 0x1099), (0x17e0, 0x17e9),
   (0x1810, 0x1819), (0x1946, 0x194f), (0x19d0, 0x19d9), (0x1a80, 0x1a89),
   (0x1a90, 0x1a99), (0x1b50, 0x1b59), (0x1bb0, 0x1bb9), (0x1c40, 0x1c49),
   (0x1c50, 0x1c59), (0xa620, 0xa629), (0xa8d0, 0xa8d9), (0xa900, 0xa909),
   (0xa9d0, 0xa9d9), (0xa9f0, 0xa9f9), (0xaa50, 0xaa59), (0xabf0, 0xabf9),
   (0xff10, 0xff19), (0x104a0, 0x104a9), (0x10d30, 0x10d39),
   (0x11066, 0x1106f), (0x110f0, 0x110f9), (0x11136, 0x1113f),
   (0x111d0, 0x111d9), (0x112f0, 0x112f9), (0x11450, 0x11459),
   (0x114d0, 0x114d9), (0x11650, 0x11659), (0x116c0, 0x116c9),
   (0x11730, 0x11739), (0x118e0, 0x118e9), (0x11950, 0x11959),
   (0x11c50, 0x11c59), (0x11d50, 0x11d59), (0x11da0, 0x11da9),
   (0x16a60, 0x16a69), (0x16ac0, 0x16ac9), (0x16b50, 0x16b59),
   (0x1d7ce, 0x1d7ff), (0x1e140, 0x1e149), (0x1e2f0, 0x1e2f9),
   (0x1e950, 0x1e959), (0x1fbf0, 0x1fbf9)]

/-- Is this character a Unicode decimal digit (category Nd) — the characters
Python's `\d` matches in a str pattern? -/
def pyIsDigit (c : Char) : Bool :=
  ndDigitRanges.any fun r => r.1 ≤ c.val && c.val ≤ r.2

/-- Python `re.search(r"\d", name)`: is some character of the name a Unicode
decimal digit? -/
def containsDigit (s : String) : Bool :=
  s.toList.any pyIsDigit

structure WalkSt where
  processed : List String
  dirsCreated : List String
  capturesAttempted : List String
deriving DecidableEq, Repr

/-- One row of the per-team table loop: skip names containing a digit (before
any directory creation), skip names already processed (by sanitized name),
otherwise create the directory, attempt the capture, and record the athlete
as processed only if the capture call did not raise. -/
def walkRow (st : WalkSt) (name : String) (captureOk : Bool) : WalkSt :=
  if containsDigit name then st
  else
    let safe := sanitize_filename name
    if safe ∈ st.processed then st
    else
      let st' : WalkSt :=
        { st with dirsCreated := st.dirsCreated ++ [safe],
                  capturesAttempted := st.capturesAttempted ++ [safe] }
      if captureOk then { st' with processed := st'.processed ++ [safe] }
      else st'

/-! ## File-index deltas

`GoodDelta c c2 fs` says a computation moved the counters from `c` to `c2`
while appending the files `fs`: counters never decrease and for every label
the written indices are strictly increasing and lie in the half-open counter
interval.  `ExactDelta` additionally says no index was skipped (every counter
increment produced a file). -/

def idxsFor (pfx : String) (fs : List FileRec) : List Nat :=
  (fs.filter fun f => f.pfx = pfx).map FileRec.idx

def GoodDelta (c c2 : Counters) (fs : List FileRec) : Prop :=
  (∀ p, c p ≤ c2 p) ∧
  ∀ p, List.Pairwise (· < ·) (idxsFor p fs) ∧
    ∀ i ∈ idxsFor p fs, c p < i ∧ i ≤ c2 p

def ExactDelta (c c2 : Counters) (fs : List FileRec) : Prop :=
  (∀ p, c p ≤ c2 p) ∧
  ∀ p, idxsFor p fs = List.range' (c p + 1) (c2 p - c p)

theorem idxsFor_nil (pfx : String) : idxsFor pfx [] = [] := rfl

theorem idxsFor_append (pfx : String) (fs1 fs2 : List FileRec) :
    idxsFor pfx (fs1 ++ fs2) = idxsFor pfx fs1 ++ idxsFor pfx fs2 := by
  unfold idxsFor
  rw [List.filter_append, List.map_append]

theorem idxsFor_cons_self (pfx : String) (i d : Nat) (fs : List FileRec) :
    idxsFor pfx (⟨pfx, i, d⟩ :: fs) = i :: idxsFor pfx fs := by
  unfold idxsFor
  rw [List.filter_cons_of_pos (by simp)]
  rfl

theorem idxsFor_cons_single (p pfx : String) (i d : Nat) :
    idxsFor p [⟨pfx, i, d⟩] = if p = pfx then [i] else [] := by
  by_cases h : p = pfx
  · subst h
    simp [idxsFor_cons_self, idxsFor_nil]
  · have hne : ¬ pfx = p := fun hq => h hq.symm
    unfold idxsFor
    rw [List.filter_cons_of_neg (by simp [hne])]
    simp [h]

theorem goodDelta_nil (c : Counters) : GoodDelta c c [] :=
  ⟨fun _ => le_refl _, fun p => ⟨List.Pairwise.nil, by simp [idxsFor_nil]⟩⟩

theorem goodDelta_trans {c c1 c2 : Counters} {fs1 fs2 : List FileRec}
    (h1 : GoodDelta c c1 fs1) (h2 : GoodDelta c1 c2 fs2) :
    GoodDelta c c2 (fs1 ++ fs2) := by
  obtain ⟨m1, h1⟩ := h1
  obtain ⟨m2, h2⟩ := h2
  refine ⟨fun p => le_trans (m1 p) (m2 p), fun p => ?_⟩
  obtain ⟨p1, b1⟩ := h1 p
  obtain ⟨p2, b2⟩ := h2 p
  rw [idxsFor_append]
  constructor
  · rw [List.pairwise_append]
    refine ⟨p1, p2, fun a ha b hb => ?_⟩
    exact lt_of_le_of_lt (b1 a ha).2 (b2 b hb).1
  · intro i hi
    rcases List.mem_append.1 hi with h | h
    · exact ⟨(b1 i h).1, le_trans (b1 i h).2 (m2 _)⟩
    · exact ⟨lt_of_le_of_lt (m1 _) (b2 i h).1, (b2 i h).2⟩

theorem goodDelta_write (c : Counters) (pfx : String) (d : Nat) :
    GoodDelta c (bump c pfx) [⟨pfx, c pfx + 1, d⟩] := by
  refine ⟨fun p => ?_, fun p => ?_⟩
  · unfold bump
    by_cases h : p = pfx
    · subst h; simp
    · simp [h]
  · rw [idxsFor_cons_single]
    by_cases h : p = pfx
    · subst h
      rw [if_pos rfl]
      refine ⟨List.pairwise_singleton _ _, ?_⟩
      intro i hi
      rw [List.mem_singleton] at hi
      subst hi
      exact ⟨Nat.lt_succ_self _, by simp [bump]⟩
    · rw [if_neg h]
      exact ⟨List.Pairwise.nil, by simp⟩

theorem goodDelta_bumpOnly (c : Counters) (pfx : String) :
    GoodDelta c (bump c pfx) [] := by
  refine ⟨fun p => ?_, fun p => ⟨List.Pairwise.nil, by simp [idxsFor_nil]⟩⟩
  unfold bump
  by_cases h : p = pfx
  · subst h; simp
  · simp [h]

theorem exactDelta_nil (c : Counters) : ExactDelta c c [] :=
  ⟨fun _ => le_refl _, fun p => by simp [idxsFor_nil]⟩

theorem exactDelta_trans {c c1 c2 : Counters} {fs1 fs2 : List FileRec}
    (h1 : ExactDelta c c1 fs1) (h2 : ExactDelta c1 c2 fs2) :
    ExactDelta c c2 (fs1 ++ fs2) := by
  obtain ⟨m1, h1⟩ := h1
  obtain ⟨m2, h2⟩ := h2
  refine ⟨fun p => le_trans (m1 p) (m2 p), fun p => ?_⟩
  rw [idxsFor_append, h1 p, h2 p]
  have hs : c1 p + 1 = (c p + 1) + (c1 p - c p) := by
    have := m1 p
    omega
  rw [hs, List.range'_append_1]
  congr 1
  have := m1 p
  have := m2 p
  omega

theorem exactDelta_write (c : Counters) (pfx : String) (d : Nat) :
    ExactDelta c (bump c pfx) [⟨pfx, c pfx + 1, d⟩] := by
  refine ⟨(goodDelta_write c pfx d).1, fun p => ?_⟩
  rw [idxsFor_cons_single]
  by_cases h : p = pfx
  · subst h
    simp [bump, List.range']
  · simp [h, bump]

theorem exactDelta_good {c c2 : Counters} {fs : List FileRec}
    (h : ExactDelta c c2 fs) : GoodDelta c c2 fs := by
  obtain ⟨m, h⟩ := h
  refine ⟨m, fun p => ?_⟩
  rw [h p]
  constructor
  · exact List.pairwise_lt_range' _ _
  · intro i hi
    rw [List.mem_range'] at hi
    obtain ⟨j, hj, rfl⟩ := hi
    have := m p
    omega

/-! ### Unfolding equations for the capture loops -/

theorem stuGo_dup {pfx : String} {d : Nat} {ds seen : List Nat} {c : Counters}
    (hd : d ∈ seen) :
    stuGo pfx (d :: ds) seen c =
      ((stuGo pfx ds seen c).1, (stuGo pfx ds seen c).2.1,
       (stuGo pfx ds seen c).2.2.1, (stuGo pfx ds seen c).2.2.2.1,
       Ev.dupSkip pfx :: (stuGo pfx ds seen c).2.2.2.2) := by
  rw [stuGo, if_pos hd]

theorem stuGo_fresh {pfx : String} {d : Nat} {ds seen : List Nat} {c : Counters}
    (hd : d ∉ seen) :
    stuGo pfx (d :: ds) seen c =
      (true, d :: seen, bump c pfx, [⟨pfx, c pfx + 1, d⟩],
        [Ev.wrote pfx (c pfx + 1)]) := by
  rw [stuGo, if_neg hd]

theorem attemptLoop_selFail {labels : List String} {lab pfx : String}
    {a : AttemptEnv} {rest : List AttemptEnv} {seen : List Nat} {c : Counters}
    (h : a.selOk = false) :
    attemptLoop labels lab pfx (a :: rest) seen c =
      ((attemptLoop labels lab pfx rest seen c).1,
       (attemptLoop labels lab pfx rest seen c).2.1,
       (attemptLoop labels lab pfx rest seen c).2.2.1,
       (attemptLoop labels lab pfx rest seen c).2.2.2.1,
       Ev.select lab false :: Ev.retryLabel lab ::
         (attemptLoop labels lab pfx rest seen c).2.2.2.2) := by
  rw [attemptLoop, if_neg (by simp [h])]

theorem attemptLoop_hit {labels : List String} {lab pfx : String}
    {a : AttemptEnv} {rest : List AttemptEnv} {seen : List Nat} {c : Counters}
    (h : a.selOk = true)
    (hr : (screenshot_tile_unique pfx a.shotDigests seen c).1 = true) :
    attemptLoop labels lab pfx (a :: rest) seen c =
      (true, (screenshot_tile_unique pfx a.shotDigests seen c).2.1,
       (screenshot_tile_unique pfx a.shotDigests seen c).2.2.1,
       (screenshot_tile_unique pfx a.shotDigests seen c).2.2.2.1,
       Ev.select lab true ::
         (screenshot_tile_unique pfx a.shotDigests seen c).2.2.2.2) := by
  rw [attemptLoop, if_pos h, if_pos hr]

theorem attemptLoop_miss {labels : List String} {lab pfx : String}
    {a : AttemptEnv} {rest : List AttemptEnv} {seen : List Nat} {c : Counters}
    (h : a.selOk = true)
    (hr : (screenshot_tile_unique pfx a.shotDigests seen c).1 = false) :
    attemptLoop labels lab pfx (a :: rest) seen c =
      (let r := screenshot_tile_unique pfx a.shotDigests seen c
       let btr : List Ev :=
         match (labels.filter fun x => x ≠ lab).head? with
         | some alt => [Ev.bounce alt lab]
         | none => []
       let r2 := attemptLoop labels lab pfx rest r.2.1 r.2.2.1
       (r2.1, r2.2.1, r2.2.2.1, r.2.2.2.1 ++ r2.2.2.2.1,
         Ev.select lab true :: r.2.2.2.2 ++ btr ++ r2.2.2.2.2)) := by
  rw [attemptLoop, if_pos h, if_neg (by simp [hr])]

/-! ### Exact deltas and label containment along the card path -/

theorem stuGo_exact (pfx : String) :
    ∀ (ds seen : List Nat) (c : Counters),
      ExactDelta c (stuGo pfx ds seen c).2.2.1 (stuGo pfx ds seen c).2.2.2.1 ∧
      ∀ f ∈ (stuGo pfx ds seen c).2.2.2.1, f.pfx = pfx
  | [], seen, c => ⟨exactDelta_nil c, by simp [stuGo]⟩
  | d :: ds, seen, c => by
    by_cases hd : d ∈ seen
    · rw [stuGo_dup hd]
      exact stuGo_exact pfx ds seen c
    · rw [stuGo_fresh hd]
      refine ⟨exactDelta_write c pfx d, ?_⟩
      intro f hf
      rw [List.mem_singleton] at hf
      subst hf
      rfl

theorem screenshot_tile_unique_exact (pfx : String) (shots seen : List Nat)
    (c : Counters) :
    ExactDelta c (screenshot_tile_unique pfx shots seen c).2.2.1
        (screenshot_tile_unique pfx shots seen c).2.2.2.1 ∧
      ∀ f ∈ (screenshot_tile_unique pfx shots seen c).2.2.2.1, f.pfx = pfx :=
  stuGo_exact pfx (shots.take 3) seen c

theorem attemptLoop_exact (labels : List String) (lab pfx : String) :
    ∀ (envs : List AttemptEnv) (seen : List Nat) (c : Counters),
      ExactDelta c (attemptLoop labels lab pfx envs seen c).2.2.1
          (attemptLoop labels lab pfx envs seen c).2.2.2.1 ∧
      ∀ f ∈ (attemptLoop labels lab pfx envs seen c).2.2.2.1, f.pfx = pfx
  | [], seen, c => ⟨exactDelta_nil c, by simp [attemptLoop]⟩
  | a :: rest, seen, c => by
    by_cases hsel : a.selOk = true
    · by_cases hr : (screenshot_tile_unique pfx a.shotDigests seen c).1 = true
      · rw [attemptLoop_hit hsel hr]
        exact screenshot_tile_unique_exact pfx a.shotDigests seen c
      · rw [attemptLoop_miss hsel (by simpa using hr)]
        obtain ⟨e1, m1⟩ := screenshot_tile_unique_exact pfx a.shotDigests seen c
        obtain ⟨e2, m2⟩ := attemptLoop_exact labels lab pfx rest
          (screenshot_tile_unique pfx a.shotDigests seen c).2.1
          (screenshot_tile_unique pfx a.shotDigests seen c).2.2.1
        refine ⟨exactDelta_trans e1 e2, ?_⟩
        intro f hf
        rcases List.mem_append.1 hf with h | h
        · exact m1 f h
        · exact m2 f h
    · rw [attemptLoop_selFail (by simpa using hsel)]
      exact attemptLoop_exact labels lab pfx rest seen c

theorem captureLabel_exact (labels : List String) (title lab pfx : String)
    (envs : List AttemptEnv) (seen : List Nat) (c : Counters) :
    ExactDelta c (captureLabel labels title lab pfx envs seen c).2.2.1
        (captureLabel labels title lab pfx envs seen c).2.2.2.1 ∧
      ∀ f ∈ (captureLabel labels title lab pfx envs seen c).2.2.2.1,
        f.pfx = pfx := by
  obtain ⟨e, m⟩ := attemptLoop_exact labels lab pfx (envs.take 3) seen c
  unfold captureLabel
  by_cases h : (attemptLoop labels lab pfx (envs.take 3) seen c).1 = true
  · rw [if_pos h]
    exact ⟨e, m⟩
  · rw [if_neg h]
    exact ⟨e, m⟩

theorem cardLoop_exact (labels : List String) (title pfx : String)
    (env : Nat → List AttemptEnv) :
    ∀ (labs : List String) (k : Nat) (seen : List Nat) (c : Counters),
      ExactDelta c (cardLoop labels title pfx env labs k seen c).2.1
          (cardLoop labels title pfx env labs k seen c).2.2.1 ∧
      ∀ f ∈ (cardLoop labels title pfx env labs k seen c).2.2.1, f.pfx = pfx
  | [], k, seen, c => ⟨exactDelta_nil c, by simp [cardLoop]⟩
  | lab :: rest, k, seen, c => by
    rw [cardLoop]
    obtain ⟨e1, m1⟩ := captureLabel_exact labels title lab pfx (env k) seen c
    obtain ⟨e2, m2⟩ := cardLoop_exact labels title pfx env rest (k + 1)
      (captureLabel labels title lab pfx (env k) seen c).2.1
      (captureLabel labels title lab pfx (env k) seen c).2.2.1
    refine ⟨exactDelta_trans e1 e2, ?_⟩
    intro f hf
    rcases List.mem_append.1 hf with h | h
    · exact m1 f h
    · exact m2 f h

theorem capture_humantrak_card_exact (title : String) (labels : List String)
    (ce : CardEnv) (c : Counters) :
    ExactDelta c (capture_humantrak_card title labels ce c).ctr
        (capture_humantrak_card title labels ce c).files ∧
      ∀ f ∈ (capture_humantrak_card title labels ce c).files,
        f.pfx = spaceToUnderscore title := by
  unfold capture_humantrak_card
  by_cases h : ce.tileFound = true
  · rw [if_pos h]
    exact cardLoop_exact labels title (spaceToUnderscore title) ce.attempts
      labels 0 [] c
  · rw [if_neg (by simp [h])]
    exact ⟨exactDelta_nil c, by simp⟩

theorem captureAnyGo_exact (labels : List String) :
    ∀ (cands : List (String × CardEnv)) (err : Bool) (c : Counters),
      ExactDelta c (captureAnyGo labels cands err c).ctr
          (captureAnyGo labels cands err c).files ∧
      ∀ f ∈ (captureAnyGo labels cands err c).files,
        ∃ t ∈ cands, f.pfx = spaceToUnderscore t.1
  | [], err, c => ⟨exactDelta_nil c, by simp [captureAnyGo]⟩
  | (title, ce) :: rest, err, c => by
    rw [captureAnyGo]
    obtain ⟨e1, m1⟩ := capture_humantrak_card_exact title labels ce c
    rcases hres : (capture_humantrak_card title labels ce c).res with _ | t
    · dsimp only
      obtain ⟨e2, m2⟩ := captureAnyGo_exact labels rest true
        (capture_humantrak_card title labels ce c).ctr
      refine ⟨exactDelta_trans e1 e2, ?_⟩
      intro f hf
      rcases List.mem_append.1 hf with h | h
      · exact ⟨(title, ce), by simp, m1 f h⟩
      · obtain ⟨t, ht, hp⟩ := m2 f h
        exact ⟨t, List.mem_cons_of_mem _ ht, hp⟩
    · dsimp only
      refine ⟨e1, fun f hf => ⟨(title, ce), by simp, m1 f hf⟩⟩

/-! ### Deltas along the modal path -/

theorem sectionsLoop_good (pfx : String) (secs : Nat → SectionOutcome) :
    ∀ (is : List Nat) (c : Counters),
      GoodDelta c (sectionsLoop pfx secs is c).2.1
          (sectionsLoop pfx secs is c).2.2.1 ∧
      ∀ f ∈ (sectionsLoop pfx secs is c).2.2.1, f.pfx = pfx
  | [], c => ⟨goodDelta_nil c, by simp [sectionsLoop]⟩
  | i :: rest, c => by
    rw [sectionsLoop]
    rcases hsec : secs i with _ | _ | d
    · dsimp only
      exact sectionsLoop_good pfx secs rest c
    · dsimp only
      obtain ⟨g, m⟩ := sectionsLoop_good pfx secs rest (bump c pfx)
      have := goodDelta_trans (goodDelta_bumpOnly c pfx) g
      rw [List.nil_append] at this
      exact ⟨this, m⟩
    · dsimp only
      obtain ⟨g, m⟩ := sectionsLoop_good pfx secs rest (bump c pfx)
      have := goodDelta_trans (goodDelta_write c pfx d) g
      rw [List.singleton_append] at this
      refine ⟨this, ?_⟩
      intro f hf
      rcases List.mem_cons.1 hf with h | h
      · subst h; rfl
      · exact m f h

theorem sectionsLoop_exact (pfx : String) (secs : Nat → SectionOutcome)
    (hno : ∀ i, secs i ≠ SectionOutcome.failAtShot) :
    ∀ (is : List Nat) (c : Counters),
      ExactDelta c (sectionsLoop pfx secs is c).2.1
        (sectionsLoop pfx secs is c).2.2.1
  | [], c => exactDelta_nil c
  | i :: rest, c => by
    rw [sectionsLoop]
    rcases hsec : secs i with _ | _ | d
    · dsimp only
      exact sectionsLoop_exact pfx secs hno rest c
    · exact absurd hsec (hno i)
    · dsimp only
      have e := sectionsLoop_exact pfx secs hno rest (bump c pfx)
      have := exactDelta_trans (exactDelta_write c pfx d) e
      rwa [List.singleton_append] at this

theorem screenshot_modal_accordions_good (env : ModalEnv) (pfx : String)
    (c : Counters) :
    GoodDelta c (screenshot_modal_accordions env pfx c).ctr
        (screenshot_modal_accordions env pfx c).files ∧
      ∀ f ∈ (screenshot_modal_accordions env pfx c).files, f.pfx = pfx := by
  unfold screenshot_modal_accordions
  by_cases h : stableCnt env = 0
  · rw [if_pos h]
    rcases env.fallback with _ | _ | d
    · exact ⟨goodDelta_nil c, by simp⟩
    · exact ⟨goodDelta_bumpOnly c pfx, by simp⟩
    · refine ⟨goodDelta_write c pfx d, ?_⟩
      intro f hf
      rw [List.mem_singleton] at hf
      subst hf
      rfl
  · rw [if_neg h]
    exact sectionsLoop_good pfx env.sections (List.range (stableCnt env)) c

/-- A modal environment with no failure point located after a counter
increment: the whole-modal fallback screenshot does not raise, and no
accordion-section screenshot raises. -/
def ModalEnv.noPostInc (m : ModalEnv) : Prop :=
  m.fallback ≠ FallbackOutcome.shotFail ∧
  ∀ i, m.sections i ≠ SectionOutcome.failAtShot

theorem screenshot_modal_accordions_exact (env : ModalEnv) (pfx : String)
    (c : Counters) (hno : env.noPostInc) :
    ExactDelta c (screenshot_modal_accordions env pfx c).ctr
      (screenshot_modal_accordions env pfx c).files := by
  unfold screenshot_modal_accordions
  by_cases h : stableCnt env = 0
  · rw [if_pos h]
    rcases hf : env.fallback with _ | _ | d
    · exact exactDelta_nil c
    · exact absurd hf hno.1
    · exact exactDelta_write c pfx d
  · rw [if_neg h]
    exact sectionsLoop_exact pfx env.sections hno.2 (List.range (stableCnt env)) c

theorem modalStep_good (label : String) (e : ModalStepEnv) (c : Counters) :
    GoodDelta c (modalStep label e c).1 (modalStep label e c).2.1 ∧
      ∀ f ∈ (modalStep label e c).2.1, f.pfx = label := by
  unfold modalStep
  by_cases h : e.openOk = true
  · rw [if_pos h]
    dsimp only
    obtain ⟨g, m⟩ := screenshot_modal_accordions_good e.modal label c
    rcases hres : (screenshot_modal_accordions e.modal label c).res with _ | t
    · dsimp only
      exact ⟨g, m⟩
    · dsimp only
      by_cases hc : e.closeOk = true
      · rw [if_pos hc]
        exact ⟨g, m⟩
      · rw [if_neg hc]
        exact ⟨g, m⟩
  · rw [if_neg (by simp [h])]
    exact ⟨goodDelta_nil c, by simp⟩

theorem modalStep_exact (label : String) (e : ModalStepEnv) (c : Counters)
    (hno : e.modal.noPostInc) :
    ExactDelta c (modalStep label e c).1 (modalStep label e c).2.1 := by
  unfold modalStep
  by_cases h : e.openOk = true
  · rw [if_pos h]
    dsimp only
    have g := screenshot_modal_accordions_exact e.modal label c hno
    rcases hres : (screenshot_modal_accordions e.modal label c).res with _ | t
    · dsimp only
      exact g
    · dsimp only
      by_cases hc : e.closeOk = true
      · rw [if_pos hc]
        exact g
      · rw [if_neg hc]
        exact g
  · rw [if_neg (by simp [h])]
    exact exactDelta_nil c

theorem cardStep_exact (title : String) (labels : List String) (ce : CardEnv)
    (c : Counters) :
    ExactDelta c (cardStep title labels ce c).1 (cardStep title labels ce c).2.1 ∧
      ∀ f ∈ (cardStep title labels ce c).2.1, f.pfx = spaceToUnderscore title := by
  unfold cardStep
  dsimp only
  obtain ⟨e, m⟩ := capture_humantrak_card_exact title labels ce c
  rcases hres : (capture_humantrak_card title labels ce c).res with _ | t
  · dsimp only
    exact ⟨e, m⟩
  · dsimp only
    exact ⟨e, m⟩

theorem anyStep_exact (stepLabel : String) (labels : List String)
    (cands : List (String × CardEnv)) (c : Counters) :
    ExactDelta c (anyStep stepLabel labels cands c).1
        (anyStep stepLabel labels cands c).2.1 ∧
      ∀ f ∈ (anyStep stepLabel labels cands c).2.1,
        ∃ t ∈ cands, f.pfx = spaceToUnderscore t.1 := by
  unfold anyStep
  dsimp only
  obtain ⟨e, m⟩ := captureAnyGo_exact labels cands false c
  rcases hres : (captureAnyGo labels cands false c).res with _ | t
  · dsimp only
    exact ⟨e, m⟩
  · dsimp only
    exact ⟨e, m⟩

/-! ### Whole-athlete deltas -/

/-- No failure point after a counter increment anywhere in the athlete's
checklist (the HumanTrak path has no such point by construction). -/
def AthleteEnv.noPostInc (e : AthleteEnv) : Prop :=
  e.cmj.modal.noPostInc ∧ e.nordic.modal.noPostInc ∧
  e.sprint.modal.noPostInc ∧ e.drill.modal.noPostInc

theorem take_screens_goodDelta (env : AthleteEnv) :
    GoodDelta (fun _ => 0) (take_screens_for_athlete env).ctr
        (take_screens_for_athlete env).files ∧
    ∀ f ∈ (take_screens_for_athlete env).files, f.pfx ∈ checkKeys := by
  have h1 := modalStep_good "Countermovement_Jump" env.cmj (fun _ => 0)
  have h2 := modalStep_good "Nordic" env.nordic (stage1 env).1
  have h3 := modalStep_good "20yd_Sprint" env.sprint (stage2 env).1
  have h4 := modalStep_good "5-0-5_Drill" env.drill (stage3 env).1
  have h5 := cardStep_exact "Overhead Squat" ht_labels env.ohs (stage4 env).1
  have h6 := anyStep_exact "Lunge/Lunges" ht_labels
    [("Lunge", env.lunge), ("Lunges", env.lunges)] (stage5 env).1
  have g1 : GoodDelta (fun _ => 0) (stage1 env).1 (stage1 env).2.1 := h1.1
  have g2 : GoodDelta (stage1 env).1 (stage2 env).1 (stage2 env).2.1 := h2.1
  have g3 : GoodDelta (stage2 env).1 (stage3 env).1 (stage3 env).2.1 := h3.1
  have g4 : GoodDelta (stage3 env).1 (stage4 env).1 (stage4 env).2.1 := h4.1
  have g5 : GoodDelta (stage4 env).1 (stage5 env).1 (stage5 env).2.1 :=
    exactDelta_good h5.1
  have g6 : GoodDelta (stage5 env).1 (stage6 env).1 (stage6 env).2.1 :=
    exactDelta_good h6.1
  constructor
  · exact goodDelta_trans (goodDelta_trans (goodDelta_trans (goodDelta_trans
      (goodDelta_trans g1 g2) g3) g4) g5) g6
  · intro f hf
    have hsplit : f ∈ (stage1 env).2.1 ∨ f ∈ (stage2 env).2.1 ∨
        f ∈ (stage3 env).2.1 ∨ f ∈ (stage4 env).2.1 ∨
        f ∈ (stage5 env).2.1 ∨ f ∈ (stage6 env).2.1 := by
      have hx : f ∈ (stage1 env).2.1 ++ (stage2 env).2.1 ++ (stage3 env).2.1 ++
          (stage4 env).2.1 ++ (stage5 env).2.1 ++ (stage6 env).2.1 := hf
      simp only [List.mem_append] at hx
      tauto
    rcases hsplit with h | h | h | h | h | h
    · rw [(h1.2 : ∀ f ∈ (stage1 env).2.1, f.pfx = "Countermovement_Jump") f h]
      decide
    · rw [(h2.2 : ∀ f ∈ (stage2 env).2.1, f.pfx = "Nordic") f h]
      decide
    · rw [(h3.2 : ∀ f ∈ (stage3 env).2.1, f.pfx = "20yd_Sprint") f h]
      decide
    · rw [(h4.2 : ∀ f ∈ (stage4 env).2.1, f.pfx = "5-0-5_Drill") f h]
      decide
    · rw [(h5.2 : ∀ f ∈ (stage5 env).2.1,
        f.pfx = spaceToUnderscore "Overhead Squat") f h]
      decide
    · obtain ⟨t, ht, hp⟩ := (h6.2 : ∀ f ∈ (stage6 env).2.1,
        ∃ t ∈ [("Lunge", env.lunge), ("Lunges", env.lunges)],
          f.pfx = spaceToUnderscore t.1) f h
      rcases List.mem_cons.1 ht with h9 | h9
      · subst h9
        rw [hp]
        show spaceToUnderscore "Lunge" ∈ checkKeys
        decide
      · rw [List.mem_singleton] at h9
        subst h9
        rw [hp]
        show spaceToUnderscore "Lunges" ∈ checkKeys
        decide

theorem take_screens_exactDelta (env : AthleteEnv) (hno : env.noPostInc) :
    ExactDelta (fun _ => 0) (take_screens_for_athlete env).ctr
      (take_screens_for_athlete env).files := by
  have g1 : ExactDelta (fun _ => 0) (stage1 env).1 (stage1 env).2.1 :=
    modalStep_exact "Countermovement_Jump" env.cmj (fun _ => 0) hno.1
  have g2 : ExactDelta (stage1 env).1 (stage2 env).1 (stage2 env).2.1 :=
    modalStep_exact "Nordic" env.nordic (stage1 env).1 hno.2.1
  have g3 : ExactDelta (stage2 env).1 (stage3 env).1 (stage3 env).2.1 :=
    modalStep_exact "20yd_Sprint" env.sprint (stage2 env).1 hno.2.2.1
  have g4 : ExactDelta (stage3 env).1 (stage4 env).1 (stage4 env).2.1 :=
    modalStep_exact "5-0-5_Drill" env.drill (stage3 env).1 hno.2.2.2
  have g5 : ExactDelta (stage4 env).1 (stage5 env).1 (stage5 env).2.1 :=
    (cardStep_exact "Overhead Squat" ht_labels env.ohs (stage4 env).1).1
  have g6 : ExactDelta (stage5 env).1 (stage6 env).1 (stage6 env).2.1 :=
    (anyStep_exact "Lunge/Lunges" ht_labels
      [("Lunge", env.lunge), ("Lunges", env.lunges)] (stage5 env).1).1
  exact exactDelta_trans (exactDelta_trans (exactDelta_trans (exactDelta_trans
    (exactDelta_trans g1 g2) g3) g4) g5) g6

/-- Indices (in write order) of the files the athlete session wrote under one
tile label. -/
def writtenIdxs (pfx : String) (env : AthleteEnv) : List Nat :=
  idxsFor pfx (take_screens_for_athlete env).files

/-- A checklist step whose opener never finds its tile. -/
def inertModal : ModalStepEnv :=
  { openOk := false
    modal := { counts := fun _ => 0, fallback := FallbackOutcome.expectFail,
               sections := fun _ => SectionOutcome.failEarly }
    closeOk := true }

/-- A HumanTrak card whose tile is absent. -/
def inertCardEnv : CardEnv := { tileFound := false, attempts := fun _ => [] }

/-- Athlete run in which the Nordic modal settles at 2 accordion sections and
the first section's screenshot raises after the counter increment. -/
def gapEnv : AthleteEnv :=
  { cmj := inertModal
    nordic :=
      { openOk := true, closeOk := true
        modal := { counts := fun _ => 2, fallback := FallbackOutcome.expectFail,
                   sections := fun i =>
                     if i = 0 then SectionOutcome.failAtShot
                     else SectionOutcome.ok 42 } }
    sprint := inertModal
    drill := inertModal
    ohs := inertCardEnv
    lunge := inertCardEnv
    lunges := inertCardEnv }

/-- C1 counterexample: the claim says the k-th file written under a prefix is
always named `{prefix}_{k:03d}.png` (counter values with no gaps), and in
particular that a subsection screenshot failing after the increment leaves no
gap.  In `gapEnv` the first Nordic section's screenshot fails after
`counters[prefix] += 1`, so the one file written is `Nordic_002.png`: the
first (k = 1) file has index 2, not 1. -/
theorem C1_counterexample :
    ¬ (∀ (env : AthleteEnv) (pfx : String),
        writtenIdxs pfx env = List.range' 1 (writtenIdxs pfx env).length) := by
  intro h
  have hx := h gapEnv "Nordic"
  have hv : writtenIdxs "Nordic" gapEnv = [2] := by decide
  rw [hv] at hx
  exact absurd hx (by decide)

/-- C1 (amended): per-athlete, per-prefix file indices are strictly
increasing (never reset mid-athlete) and start no lower than 1; when no
screenshot fails after its counter increment they are exactly 1, 2, …, k (no
gaps, k-th file named with index k, first file indexed 001); and the counter
map is created fresh inside `take_screens_for_athlete`, so a run's output is
the same whatever athletes were processed before it (no leakage across
athletes).  A post-increment screenshot failure, however, consumes an index
and leaves a gap. -/
theorem C1_counters_strictly_increasing (env : AthleteEnv) (pfx : String) :
    List.Pairwise (· < ·) (writtenIdxs pfx env) ∧
    (∀ i ∈ writtenIdxs pfx env, 1 ≤ i) ∧
    (env.noPostInc →
      writtenIdxs pfx env = List.range' 1 (writtenIdxs pfx env).length) ∧
    (∀ pre : List AthleteEnv,
      runAthletes (pre ++ [env]) =
        runAthletes pre ++ [take_screens_for_athlete env]) := by
  obtain ⟨⟨mono, hgood⟩, _⟩ := take_screens_goodDelta env
  obtain ⟨pw, bounds⟩ := hgood pfx
  refine ⟨pw, ?_, ?_, ?_⟩
  · intro i hi
    have := (bounds i hi).1
    omega
  · intro hno
    obtain ⟨m, hex⟩ := take_screens_exactDelta env hno
    have hh := hex pfx
    unfold writtenIdxs
    rw [hh, List.length_range']
  · intro pre
    unfold runAthletes
    rw [List.map_append]
    rfl

/-- All-success Nordic modal: 2 sections, both screenshots succeed. -/
def okEnv : AthleteEnv :=
  { cmj := inertModal
    nordic :=
      { openOk := true, closeOk := true
        modal := { counts := fun _ => 2, fallback := FallbackOutcome.ok 7,
                   sections := fun i => SectionOutcome.ok (100 + i) } }
    sprint := inertModal
    drill := inertModal
    ohs := inertCardEnv
    lunge := inertCardEnv
    lunges := inertCardEnv }

/-- Witness for C1's amended theorem on the all-success run. -/
theorem C1_counters_witness :
    okEnv.noPostInc ∧
    writtenIdxs "Nordic" okEnv =
      List.range' 1 (writtenIdxs "Nordic" okEnv).length := by
  have hno : okEnv.noPostInc :=
    ⟨⟨by decide, fun i h => nomatch h⟩, ⟨by decide, fun i h => nomatch h⟩,
     ⟨by decide, fun i h => nomatch h⟩, ⟨by decide, fun i h => nomatch h⟩⟩
  exact ⟨hno, (C1_counters_strictly_increasing okEnv "Nordic").2.2.1 hno⟩

/-- A modal whose accordion count never becomes positive and whose fallback
whole-modal screenshot raises (e.g. the modal detached mid-capture). -/
def fallbackFailEnv : ModalEnv :=
  { counts := fun _ => 0, fallback := FallbackOutcome.shotFail,
    sections := fun _ => SectionOutcome.failEarly }

/-- C3 counterexample: the claim says a zero-subsection modal always yields
exactly one fallback image, returns 1 and never raises.  But the fallback
path's `expect` and `modal.screenshot()` calls are not wrapped in a
try/except (unlike the per-section loop), so when the fallback screenshot
raises, `screenshot_modal_accordions` propagates the exception and writes
zero images (and the counter index consumed by line 662 is lost). -/
theorem C3_counterexample :
    ¬ (∀ (env : ModalEnv) (pfx : String) (c : Counters), stableCnt env = 0 →
        (screenshot_modal_accordions env pfx c).res = Except.ok 1 ∧
        (screenshot_modal_accordions env pfx c).files.length = 1) := by
  intro h
  have hx := h fallbackFailEnv "Nordic" (fun _ => 0) (by decide)
  have hv : (screenshot_modal_accordions fallbackFailEnv "Nordic"
      (fun _ => 0)).res = Except.error () := rfl
  rw [hx.1] at hv
  exact nomatch hv

/-- C3 (amended): on a modal whose stabilized accordion count is zero, the
engine takes the single whole-modal fallback path: if the fallback screenshot
succeeds it writes exactly one image under the next counter index and returns
1 (never zero images, no error); if the screenshot itself raises the
exception propagates with the counter index already consumed; if the
visibility `expect` raises the exception propagates with no index consumed. -/
theorem C3_zero_sections_fallback (env : ModalEnv) (pfx : String)
    (c : Counters) (h0 : stableCnt env = 0) :
    (∀ d, env.fallback = FallbackOutcome.ok d →
      screenshot_modal_accordions env pfx c =
        ⟨Except.ok 1, bump c pfx, [⟨pfx, c pfx + 1, d⟩],
          [Ev.noAccordions pfx, Ev.wrote pfx (c pfx + 1)]⟩) ∧
    (env.fallback = FallbackOutcome.shotFail →
      screenshot_modal_accordions env pfx c =
        ⟨Except.error (), bump c pfx, [], [Ev.noAccordions pfx]⟩) ∧
    (env.fallback = FallbackOutcome.expectFail →
      screenshot_modal_accordions env pfx c =
        ⟨Except.error (), c, [], [Ev.noAccordions pfx]⟩) := by
  unfold screenshot_modal_accordions
  dsimp only
  rw [if_pos h0]
  refine ⟨?_, ?_, ?_⟩
  · intro d hd
    rw [hd]
  · intro hd
    rw [hd]
  · intro hd
    rw [hd]

/-- A zero-accordion modal whose fallback screenshot succeeds. -/
def fallbackOkEnv : ModalEnv :=
  { counts := fun _ => 0, fallback := FallbackOutcome.ok 9,
    sections := fun _ => SectionOutcome.failEarly }

/-- Witness for C3's amended theorem. -/
theorem C3_fallback_witness :
    stableCnt fallbackOkEnv = 0 ∧
    screenshot_modal_accordions fallbackOkEnv "Nordic" (fun _ => 0) =
      ⟨Except.ok 1, bump (fun _ => 0) "Nordic", [⟨"Nordic", 1, 9⟩],
        [Ev.noAccordions "Nordic", Ev.wrote "Nordic" 1]⟩ :=
  ⟨by decide,
   (C3_zero_sections_fallback fallbackOkEnv "Nordic" (fun _ => 0)
      (by decide)).1 9 rfl⟩

/-! ### Hash deltas: the dedup invariant of the metric-switch engine -/

/-- A computation extended the seen-hash set from `seen` to `seen2` while
writing the files `fs`: it never forgets a hash, every written digest was
fresh at its write and recorded afterwards, and the written digests are
pairwise distinct. -/
def HashDelta (seen seen2 : List Nat) (fs : List FileRec) : Prop :=
  (∀ d, d ∈ seen → d ∈ seen2) ∧
  (∀ f ∈ fs, f.digest ∈ seen2 ∧ f.digest ∉ seen) ∧
  (fs.map FileRec.digest).Nodup

theorem hashDelta_nil (seen : List Nat) : HashDelta seen seen [] :=
  ⟨fun _ h => h, by simp, List.Pairwise.nil⟩

theorem hashDelta_trans {s0 s1 s2 : List Nat} {fs1 fs2 : List FileRec}
    (h1 : HashDelta s0 s1 fs1) (h2 : HashDelta s1 s2 fs2) :
    HashDelta s0 s2 (fs1 ++ fs2) := by
  obtain ⟨sub1, mem1, nd1⟩ := h1
  obtain ⟨sub2, mem2, nd2⟩ := h2
  refine ⟨fun d hd => sub2 d (sub1 d hd), ?_, ?_⟩
  · intro f hf
    rcases List.mem_append.1 hf with h | h
    · exact ⟨sub2 _ (mem1 f h).1, (mem1 f h).2⟩
    · exact ⟨(mem2 f h).1, fun hq => (mem2 f h).2 (sub1 _ hq)⟩
  · rw [List.map_append, List.nodup_append]
    refine ⟨nd1, nd2, ?_⟩
    intro a ha hb
    rw [List.mem_map] at ha hb
    obtain ⟨f1, hf1, rfl⟩ := ha
    obtain ⟨f2, hf2, he⟩ := hb
    exact (mem2 f2 hf2).2 (he ▸ (mem1 f1 hf1).1)

theorem stuGo_hash (pfx : String) :
    ∀ (ds seen : List Nat) (c : Counters),
      HashDelta seen (stuGo pfx ds seen c).2.1 (stuGo pfx ds seen c).2.2.2.1
  | [], seen, c => hashDelta_nil seen
  | d :: ds, seen, c => by
    by_cases hd : d ∈ seen
    · rw [stuGo_dup hd]
      exact stuGo_hash pfx ds seen c
    · rw [stuGo_fresh hd]
      refine ⟨fun x hx => List.mem_cons_of_mem _ hx, ?_, by simp⟩
      intro f hf
      rw [List.mem_singleton] at hf
      subst hf
      exact ⟨List.mem_cons_self _ _, hd⟩

theorem attemptLoop_hash (labels : List String) (lab pfx : String) :
    ∀ (envs : List AttemptEnv) (seen : List Nat) (c : Counters),
      HashDelta seen (attemptLoop labels lab pfx envs seen c).2.1
        (attemptLoop labels lab pfx envs seen c).2.2.2.1
  | [], seen, c => hashDelta_nil seen
  | a :: rest, seen, c => by
    by_cases hsel : a.selOk = true
    · by_cases hr : (screenshot_tile_unique pfx a.shotDigests seen c).1 = true
      · rw [attemptLoop_hit hsel hr]
        exact stuGo_hash pfx (a.shotDigests.take 3) seen c
      · rw [attemptLoop_miss hsel (by simpa using hr)]
        exact hashDelta_trans (stuGo_hash pfx (a.shotDigests.take 3) seen c)
          (attemptLoop_hash labels lab pfx rest _ _)
    · rw [attemptLoop_selFail (by simpa using hsel)]
      exact attemptLoop_hash labels lab pfx rest seen c

theorem captureLabel_hash (labels : List String) (title lab pfx : String)
    (envs : List AttemptEnv) (seen : List Nat) (c : Counters) :
    HashDelta seen (captureLabel labels title lab pfx envs seen c).2.1
      (captureLabel labels title lab pfx envs seen c).2.2.2.1 := by
  unfold captureLabel
  by_cases h : (attemptLoop labels lab pfx (envs.take 3) seen c).1 = true
  · rw [if_pos h]
    exact attemptLoop_hash labels lab pfx (envs.take 3) seen c
  · rw [if_neg h]
    exact attemptLoop_hash labels lab pfx (envs.take 3) seen c

theorem cardLoop_hash (labels : List String) (title pfx : String)
    (env : Nat → List AttemptEnv) :
    ∀ (labs : List String) (k : Nat) (seen : List Nat) (c : Counters),
      ∃ seen2, HashDelta seen seen2
        (cardLoop labels title pfx env labs k seen c).2.2.1
  | [], k, seen, c => ⟨seen, hashDelta_nil seen⟩
  | lab :: rest, k, seen, c => by
    rw [cardLoop]
    obtain ⟨s2, h2⟩ := cardLoop_hash labels title pfx env rest (k + 1)
      (captureLabel labels title lab pfx (env k) seen c).2.1
      (captureLabel labels title lab pfx (env k) seen c).2.2.1
    exact ⟨s2,
      hashDelta_trans (captureLabel_hash labels title lab pfx (env k) seen c) h2⟩

/-- C2: within one metric-switch capture session on one tile
(`capture_humantrak_card` starts a fresh `seen_hashes` set), the digests of
all files written are pairwise distinct; and an attempt whose screenshot
digest is already in the seen set writes no file, consumes no counter index,
leaves the seen set unchanged, and returns the same outcome as if that
attempt had not happened. -/
theorem C2_no_duplicate_content (title : String) (labels : List String)
    (ce : CardEnv) (c : Counters) :
    ((capture_humantrak_card title labels ce c).files.map FileRec.digest).Nodup ∧
    (∀ (pfx : String) (d : Nat) (ds seen : List Nat) (cc : Counters),
      d ∈ seen →
        (stuGo pfx (d :: ds) seen cc).1 = (stuGo pfx ds seen cc).1 ∧
        (stuGo pfx (d :: ds) seen cc).2.1 = (stuGo pfx ds seen cc).2.1 ∧
        (stuGo pfx (d :: ds) seen cc).2.2.1 = (stuGo pfx ds seen cc).2.2.1 ∧
        (stuGo pfx (d :: ds) seen cc).2.2.2.1 =
          (stuGo pfx ds seen cc).2.2.2.1) := by
  constructor
  · unfold capture_humantrak_card
    by_cases h : ce.tileFound = true
    · rw [if_pos h]
      obtain ⟨s2,hd⟩ := cardLoop_hash labels title (spaceToUnderscore title)
        ce.attempts labels 0 [] c
      exact hd.2.2
    · rw [if_neg (by simp [h])]
      exact List.Pairwise.nil
  · intro pfx d ds seen cc hd
    rw [stuGo_dup hd]
    exact ⟨rfl, rfl, rfl, rfl⟩

/-- A card environment producing a duplicate render on the second and third
labels before recovering with fresh content. -/
def dupCardEnv : CardEnv :=
  { tileFound := true, attempts := fun _ => [⟨true, [7, 8, 9]⟩] }

/-- Witness for C2 at a session that hits duplicate digests and recovers. -/
theorem C2_no_duplicate_witness :
    ((capture_humantrak_card "Overhead Squat" ht_labels dupCardEnv
        (fun _ => 0)).files.map FileRec.digest).Nodup ∧
    (7 ∈ [7] ∧
      (stuGo "Overhead_Squat" [7, 8] [7] (fun _ => 0)).2.2.2.1 =
        (stuGo "Overhead_Squat" [8] [7] (fun _ => 0)).2.2.2.1) :=
  ⟨(C2_no_duplicate_content "Overhead Squat" ht_labels dupCardEnv
      (fun _ => 0)).1,
   by decide,
   ((C2_no_duplicate_content "Overhead Squat" ht_labels dupCardEnv
      (fun _ => 0)).2 "Overhead_Squat" 7 [8] [7] (fun _ => 0)
      (by decide)).2.2.2⟩

/-! ### Bounded retries, bounce and skip (claim C4) -/

/-- Is this event a top-of-attempt metric selection for the given label? -/
def isSelectOf (lab : String) : Ev → Bool
  | Ev.select l _ => l = lab
  | _ => false

/-- Number of selection attempts for a label recorded in a trace. -/
def countSelect (lab : String) (tr : List Ev) : Nat :=
  tr.countP (isSelectOf lab)

theorem stuGo_trace_noSelect (lab pfx : String) :
    ∀ (ds seen : List Nat) (c : Counters),
      countSelect lab (stuGo pfx ds seen c).2.2.2.2 = 0
  | [], seen, c => rfl
  | d :: ds, seen, c => by
    by_cases hd : d ∈ seen
    · rw [stuGo_dup hd]
      unfold countSelect at *
      rw [List.countP_cons]
      have := stuGo_trace_noSelect lab pfx ds seen c
      unfold countSelect at this
      simp [this, isSelectOf]
    · rw [stuGo_fresh hd]
      unfold countSelect
      simp [isSelectOf, List.countP_cons]

theorem attemptLoop_selectCount (labels : List String) (lab pfx : String) :
    ∀ (envs : List AttemptEnv) (seen : List Nat) (c : Counters),
      countSelect lab (attemptLoop labels lab pfx envs seen c).2.2.2.2 ≤
        envs.length
  | [], seen, c => by simp [attemptLoop, countSelect]
  | a :: rest, seen, c => by
    by_cases hsel : a.selOk = true
    · by_cases hr : (screenshot_tile_unique pfx a.shotDigests seen c).1 = true
      · rw [attemptLoop_hit hsel hr]
        unfold countSelect
        rw [List.countP_cons]
        have h0 := stuGo_trace_noSelect lab pfx (a.shotDigests.take 3) seen c
        unfold countSelect at h0
        unfold screenshot_tile_unique
        simp [isSelectOf, h0]
      · rw [attemptLoop_miss hsel (by simpa using hr)]
        dsimp only
        unfold countSelect
        rw [List.countP_append, List.countP_append, List.countP_cons]
        have h0 : List.countP (isSelectOf lab)
            (screenshot_tile_unique pfx a.shotDigests seen c).2.2.2.2 = 0 :=
          stuGo_trace_noSelect lab pfx (a.shotDigests.take 3) seen c
        have h1 := attemptLoop_selectCount labels lab pfx rest
          (screenshot_tile_unique pfx a.shotDigests seen c).2.1
          (screenshot_tile_unique pfx a.shotDigests seen c).2.2.1
        unfold countSelect at h1
        have hb : List.countP (isSelectOf lab)
            (match (labels.filter fun x => x ≠ lab).head? with
             | some alt => [Ev.bounce alt lab]
             | none => ([] : List Ev)) = 0 := by
          rcases (labels.filter fun x => x ≠ lab).head? with _ | alt
          · rfl
          · simp [isSelectOf, List.countP_cons]
        have hsel1 : (if isSelectOf lab (Ev.select lab true) = true
            then 1 else 0) = 1 := by
          simp [isSelectOf]
        rw [h0, hb, hsel1, List.length_cons]
        omega
    · rw [attemptLoop_selFail (by simpa using hsel)]
      unfold countSelect
      rw [List.countP_cons, List.countP_cons]
      have h1 := attemptLoop_selectCount labels lab pfx rest seen c
      unfold countSelect at h1
      have hsel1 : (if isSelectOf lab (Ev.select lab false) = true
          then 1 else 0) = 1 := by
        simp [isSelectOf]
      have hretry : (if isSelectOf lab (Ev.retryLabel lab) = true
          then 1 else 0) = 0 := by
        simp [isSelectOf]
      rw [hsel1, hretry, List.length_cons]
      omega

theorem stuGo_false_state (pfx : String) :
    ∀ (ds seen : List Nat) (c : Counters),
      (stuGo pfx ds seen c).1 = false →
        (stuGo pfx ds seen c).2.1 = seen ∧
        (stuGo pfx ds seen c).2.2.1 = c ∧
        (stuGo pfx ds seen c).2.2.2.1 = []
  | [], seen, c, _ => ⟨rfl, rfl, rfl⟩
  | d :: ds, seen, c, h => by
    by_cases hd : d ∈ seen
    · rw [stuGo_dup hd] at h ⊢
      exact stuGo_false_state pfx ds seen c h
    · rw [stuGo_fresh hd] at h
      exact nomatch h

theorem attemptLoop_false_files (labels : List String) (lab pfx : String) :
    ∀ (envs : List AttemptEnv) (seen : List Nat) (c : Counters),
      (attemptLoop labels lab pfx envs seen c).1 = false →
        (attemptLoop labels lab pfx envs seen c).2.2.2.1 = []
  | [], seen, c, _ => rfl
  | a :: rest, seen, c, h => by
    by_cases hsel : a.selOk = true
    · by_cases hr : (screenshot_tile_unique pfx a.shotDigests seen c).1 = true
      · rw [attemptLoop_hit hsel hr] at h
        exact nomatch h
      · rw [attemptLoop_miss hsel (by simpa using hr)] at h ⊢
        dsimp only at h ⊢
        have hstu := stuGo_false_state pfx (a.shotDigests.take 3) seen c
          (by simpa [screenshot_tile_unique] using hr)
        have hrec := attemptLoop_false_files labels lab pfx rest
          (screenshot_tile_unique pfx a.shotDigests seen c).2.1
          (screenshot_tile_unique pfx a.shotDigests seen c).2.2.1 h
        rw [hrec]
        have hnil : (screenshot_tile_unique pfx a.shotDigests seen c).2.2.2.1 = [] :=
          hstu.2.2
        rw [hnil]
        rfl
    · rw [attemptLoop_selFail (by simpa using hsel)] at h ⊢
      exact attemptLoop_false_files labels lab pfx rest seen c h

theorem attemptLoop_cons_select (labels : List String) (lab pfx : String)
    (a : AttemptEnv) (rest : List AttemptEnv) (seen : List Nat) (c : Counters) :
    ∃ b tr, (attemptLoop labels lab pfx (a :: rest) seen c).2.2.2.2 =
      Ev.select lab b :: tr := by
  by_cases hsel : a.selOk = true
  · by_cases hr : (screenshot_tile_unique pfx a.shotDigests seen c).1 = true
    · rw [attemptLoop_hit hsel hr]
      exact ⟨true, _, rfl⟩
    · rw [attemptLoop_miss hsel (by simpa using hr)]
      exact ⟨true, _, rfl⟩
  · rw [attemptLoop_selFail (by simpa using hsel)]
    exact ⟨false, _, rfl⟩

theorem captureLabel_touched (labels : List String) (title lab pfx : String)
    (envs : List AttemptEnv) (seen : List Nat) (c : Counters) :
    Ev.skipLabel title lab ∈
        (captureLabel labels title lab pfx envs seen c).2.2.2.2 ∨
      ∃ b, Ev.select lab b ∈
        (captureLabel labels title lab pfx envs seen c).2.2.2.2 := by
  unfold captureLabel
  rcases he : envs.take 3 with _ | ⟨a, rest⟩
  · dsimp only
    left
    simp [attemptLoop]
  · dsimp only
    obtain ⟨b, tr, htr⟩ :=
      attemptLoop_cons_select labels lab pfx a rest seen c
    by_cases h : (attemptLoop labels lab pfx (a :: rest) seen c).1 = true
    · rw [if_pos h]
      right
      exact ⟨b, by rw [htr]; exact List.mem_cons_self _ _⟩
    · rw [if_neg h]
      right
      refine ⟨b, List.mem_append.2 (Or.inl ?_)⟩
      rw [htr]
      exact List.mem_cons_self _ _

theorem cardLoop_touched (labels : List String) (title pfx : String)
    (env : Nat → List AttemptEnv) :
    ∀ (labs : List String) (k : Nat) (seen : List Nat) (c : Counters),
      ∀ lab ∈ labs,
        Ev.skipLabel title lab ∈
            (cardLoop labels title pfx env labs k seen c).2.2.2 ∨
          ∃ b, Ev.select lab b ∈
            (cardLoop labels title pfx env labs k seen c).2.2.2
  | [], k, seen, c, lab, hlab => absurd hlab (List.not_mem_nil _)
  | l0 :: rest, k, seen, c, lab, hlab => by
    rw [cardLoop]
    dsimp only
    rcases List.mem_cons.1 hlab with h | h
    · subst h
      rcases captureLabel_touched labels title lab pfx (env k) seen c with
        h1 | ⟨b, h1⟩
      · exact Or.inl (List.mem_append.2 (Or.inl h1))
      · exact Or.inr ⟨b, List.mem_append.2 (Or.inl h1)⟩
    · rcases cardLoop_touched labels title pfx env rest (k + 1)
        (captureLabel labels title l0 pfx (env k) seen c).2.1
        (captureLabel labels title l0 pfx (env k) seen c).2.2.1 lab h with
        h1 | ⟨b, h1⟩
      · exact Or.inl (List.mem_append.2 (Or.inr h1))
      · exact Or.inr ⟨b, List.mem_append.2 (Or.inr h1)⟩

/-- C4: the duplicate-render recovery of `capture_humantrak_card` —
(i) at most 3 selection attempts per label; (ii) an attempt whose
`screenshot_tile_unique` comes back duplicate-exhausted is followed by the
bounce (select an alternative metric, re-select the label) before the next
retry; (iii) a label whose attempts are all exhausted contributes zero files
and is skipped with a log entry; (iv) the loop then still processes every
remaining label rather than aborting; and (v) in the src/src/scripts variant,
`bounce_then_reselect`'s final re-selection omits the tile argument and
raises whenever an alternative label exists. -/
theorem C4_bounce_bounded_retry_skip :
    (∀ (labels : List String) (title lab pfx : String)
        (envs : List AttemptEnv) (seen : List Nat) (c : Counters),
      countSelect lab
        (captureLabel labels title lab pfx envs seen c).2.2.2.2 ≤ 3) ∧
    (∀ (labels : List String) (lab pfx : String) (a : AttemptEnv)
        (rest : List AttemptEnv) (seen : List Nat) (c : Counters) (alt : String),
      a.selOk = true →
      (screenshot_tile_unique pfx a.shotDigests seen c).1 = false →
      (labels.filter fun x => x ≠ lab).head? = some alt →
      Ev.bounce alt lab ∈
        (attemptLoop labels lab pfx (a :: rest) seen c).2.2.2.2) ∧
    (∀ (labels : List String) (title lab pfx : String)
        (envs : List AttemptEnv) (seen : List Nat) (c : Counters),
      (captureLabel labels title lab pfx envs seen c).1 = 0 →
        (captureLabel labels title lab pfx envs seen c).2.2.2.1 = [] ∧
        Ev.skipLabel title lab ∈
          (captureLabel labels title lab pfx envs seen c).2.2.2.2) ∧
    (∀ (labels : List String) (title pfx : String)
        (env : Nat → List AttemptEnv) (labs : List String) (k : Nat)
        (seen : List Nat) (c : Counters), ∀ lab ∈ labs,
      Ev.skipLabel title lab ∈
          (cardLoop labels title pfx env labs k seen c).2.2.2 ∨
        ∃ b, Ev.select lab b ∈
          (cardLoop labels title pfx env labs k seen c).2.2.2) ∧
    (∀ (alternatives : List String) (lab : String),
      (∃ x ∈ alternatives, x ≠ lab) →
        bounce_then_reselect_variant alternatives lab = Except.error ()) := by
  refine ⟨?_, ?_, ?_, cardLoop_touched, ?_⟩
  · intro labels title lab pfx envs seen c
    unfold captureLabel
    by_cases h : (attemptLoop labels lab pfx (envs.take 3) seen c).1 = true
    · rw [if_pos h]
      dsimp only
      have := attemptLoop_selectCount labels lab pfx (envs.take 3) seen c
      have hlen : (envs.take 3).length ≤ 3 := by
        rw [List.length_take]
        omega
      omega
    · rw [if_neg h]
      dsimp only
      have := attemptLoop_selectCount labels lab pfx (envs.take 3) seen c
      have hlen : (envs.take 3).length ≤ 3 := by
        rw [List.length_take]
        omega
      unfold countSelect at *
      rw [List.countP_append]
      have hskip : List.countP (isSelectOf lab) [Ev.skipLabel title lab] = 0 := by
        simp [isSelectOf, List.countP_cons]
      rw [hskip]
      omega
  · intro labels lab pfx a rest seen c alt hsel hr halt
    rw [attemptLoop_miss hsel hr]
    dsimp only
    rw [halt]
    refine List.mem_cons_of_mem _ (List.mem_append.2 (Or.inl ?_))
    exact List.mem_append.2 (Or.inr (List.mem_cons_self _ _))
  · intro labels title lab pfx envs seen c h0
    have hfalse : (attemptLoop labels lab pfx (envs.take 3) seen c).1 = false := by
      unfold captureLabel at h0
      by_cases h : (attemptLoop labels lab pfx (envs.take 3) seen c).1 = true
      · rw [if_pos h] at h0
        exact nomatch h0
      · simpa using h
    unfold captureLabel
    rw [if_neg (by simp [hfalse])]
    refine ⟨attemptLoop_false_files labels lab pfx (envs.take 3) seen c hfalse, ?_⟩
    exact List.mem_append.2 (Or.inr (List.mem_cons_self _ _))
  · intro alternatives lab ⟨x, hx, hne⟩
    have hmem : x ∈ alternatives.filter fun y => y ≠ lab :=
      List.mem_filter.2 ⟨hx, by simp [hne]⟩
    unfold bounce_then_reselect_variant
    rcases hf : alternatives.filter fun y => y ≠ lab with _ | ⟨a, t⟩
    · rw [hf] at hmem
      exact absurd hmem (List.not_mem_nil _)
    · rfl

/-- Witness for C4 at a concrete exhausted label. -/
theorem C4_bounce_witness :
    countSelect "A" (captureLabel ["A", "B"] "Overhead Squat" "A"
      "Overhead_Squat" [⟨true, [5]⟩, ⟨true, [5]⟩, ⟨true, [5]⟩, ⟨true, [5]⟩]
      [5] (fun _ => 0)).2.2.2.2 ≤ 3 ∧
    Ev.bounce "B" "A" ∈ (attemptLoop ["A", "B"] "A" "Overhead_Squat"
      [⟨true, [5]⟩] [5] (fun _ => 0)).2.2.2.2 ∧
    bounce_then_reselect_variant ["A", "B"] "A" = Except.error () :=
  ⟨C4_bounce_bounded_retry_skip.1 ["A", "B"] "Overhead Squat" "A"
      "Overhead_Squat" [⟨true, [5]⟩, ⟨true, [5]⟩, ⟨true, [5]⟩, ⟨true, [5]⟩]
      [5] (fun _ => 0),
   C4_bounce_bounded_retry_skip.2.1 ["A", "B"] "A" "Overhead_Squat"
      ⟨true, [5]⟩ [] [5] (fun _ => 0) "B" rfl (by decide) (by decide),
   C4_bounce_bounded_retry_skip.2.2.2.2 ["A", "B"] "A"
      ⟨"B", by decide, by decide⟩⟩

/-! ### Step isolation and the reported total (claim C7) -/

theorem modalStep_marker (label : String) (e : ModalStepEnv) (c : Counters) :
    (∃ n, Ev.stepDone label n ∈ (modalStep label e c).2.2) ∨
      Ev.stepWarn label ∈ (modalStep label e c).2.2 := by
  unfold modalStep
  by_cases h : e.openOk = true
  · rw [if_pos h]
    dsimp only
    rcases hres : (screenshot_modal_accordions e.modal label c).res with _ | t
    · dsimp only
      right
      simp
    · dsimp only
      by_cases hc : e.closeOk = true
      · rw [if_pos hc]
        left
        exact ⟨t, by simp⟩
      · rw [if_neg hc]
        right
        simp
  · rw [if_neg (by simp [h])]
    right
    simp

theorem cardStep_marker (title : String) (labels : List String) (ce : CardEnv)
    (c : Counters) :
    (∃ n, Ev.stepDone title n ∈ (cardStep title labels ce c).2.2) ∨
      Ev.stepWarn title ∈ (cardStep title labels ce c).2.2 := by
  unfold cardStep
  dsimp only
  rcases hres : (capture_humantrak_card title labels ce c).res with _ | t
  · dsimp only
    right
    simp
  · dsimp only
    left
    exact ⟨t, by simp⟩

theorem anyStep_marker (stepLabel : String) (labels : List String)
    (cands : List (String × CardEnv)) (c : Counters) :
    (∃ n, Ev.stepDone stepLabel n ∈ (anyStep stepLabel labels cands c).2.2) ∨
      Ev.stepWarn stepLabel ∈ (anyStep stepLabel labels cands c).2.2 := by
  unfold anyStep
  dsimp only
  rcases hres : (captureAnyGo labels cands false c).res with _ | t
  · dsimp only
    right
    simp
  · dsimp only
    left
    exact ⟨t, by simp⟩

theorem sum_map_add_nat {α : Type} (l : List α) (f g : α → Nat) :
    (l.map fun x => f x + g x).sum = (l.map f).sum + (l.map g).sum := by
  induction l with
  | nil => rfl
  | cons a t ih =>
    simp only [List.map_cons, List.sum_cons, ih]
    omega

theorem sum_indicator_one :
    ∀ (keys : List String), keys.Nodup → ∀ x ∈ keys,
      (keys.map fun p => if p = x then 1 else 0).sum = 1
  | [], _, x, hx => absurd hx (List.not_mem_nil _)
  | k :: ks, hn, x, hx => by
    rw [List.map_cons, List.sum_cons]
    by_cases h : k = x
    · subst h
      rw [if_pos rfl]
      have hnot : k ∉ ks := (List.nodup_cons.1 hn).1
      have hz : (ks.map fun p => if p = k then 1 else 0).sum = 0 := by
        apply List.sum_eq_zero
        intro y hy
        rw [List.mem_map] at hy
        obtain ⟨p, hp, rfl⟩ := hy
        rw [if_neg (by intro hq; exact hnot (hq ▸ hp))]
      rw [hz]
    · rw [if_neg h]
      have hx' : x ∈ ks := by
        rcases List.mem_cons.1 hx with h1 | h1
        · exact absurd h1.symm h
        · exact h1
      rw [sum_indicator_one ks (List.nodup_cons.1 hn).2 x hx']

theorem idxsFor_cons_length (p : String) (f : FileRec) (fs : List FileRec) :
    (idxsFor p (f :: fs)).length =
      (if p = f.pfx then 1 else 0) + (idxsFor p fs).length := by
  unfold idxsFor
  by_cases h : p = f.pfx
  · rw [if_pos h, List.filter_cons_of_pos (by simp [h.symm])]
    simp
    omega
  · have hne : ¬ f.pfx = p := fun hq => h hq.symm
    rw [if_neg h, List.filter_cons_of_neg (by simpa using hne)]
    simp

theorem length_filter_partition (keys : List String) (hn : keys.Nodup) :
    ∀ fs : List FileRec, (∀ f ∈ fs, f.pfx ∈ keys) →
      fs.length = (keys.map fun p => (idxsFor p fs).length).sum := by
  intro fs
  induction fs with
  | nil =>
    intro _
    simp [idxsFor_nil]
  | cons f fs ih =>
    intro hmem
    have hcong : ∀ p ∈ keys, (idxsFor p (f :: fs)).length =
        (if p = f.pfx then 1 else 0) + (idxsFor p fs).length :=
      fun p _ => idxsFor_cons_length p f fs
    rw [List.map_congr_left hcong, sum_map_add_nat,
      sum_indicator_one keys hn f.pfx (hmem f (List.mem_cons_self _ _)),
      ← ih (fun g hg => hmem g (List.mem_cons_of_mem _ hg))]
    simp [Nat.add_comm]

/-- C7 (amended): every checklist step of `take_screens_for_athlete` leaves a
completion or warning log entry — an exception inside one step is caught
there, so all six steps are always attempted regardless of earlier failures —
and the reported total, `sum(counters.values())`, equals the number of images
actually written provided no screenshot failed after its counter increment
(such failures inflate the reported total, as the counterexample shows). -/
theorem C7_steps_isolated_and_total (env : AthleteEnv) :
    (∀ lab ∈ checklistLabels,
      (∃ n, Ev.stepDone lab n ∈ (take_screens_for_athlete env).trace) ∨
        Ev.stepWarn lab ∈ (take_screens_for_athlete env).trace) ∧
    (env.noPostInc →
      (take_screens_for_athlete env).total =
        (take_screens_for_athlete env).files.length) := by
  constructor
  · have lift : ∀ x : Ev,
        (x ∈ (stage1 env).2.2 ∨ x ∈ (stage2 env).2.2 ∨ x ∈ (stage3 env).2.2 ∨
         x ∈ (stage4 env).2.2 ∨ x ∈ (stage5 env).2.2 ∨ x ∈ (stage6 env).2.2) →
        x ∈ (take_screens_for_athlete env).trace := by
      intro x hx
      show x ∈ (stage1 env).2.2 ++ (stage2 env).2.2 ++ (stage3 env).2.2 ++
        (stage4 env).2.2 ++ (stage5 env).2.2 ++ (stage6 env).2.2
      simp only [List.mem_append]
      tauto
    intro lab hlab
    have hcases : lab = "Countermovement_Jump" ∨ lab = "Nordic" ∨
        lab = "20yd_Sprint" ∨ lab = "5-0-5_Drill" ∨ lab = "Overhead Squat" ∨
        lab = "Lunge/Lunges" := by
      simpa [checklistLabels] using hlab
    rcases hcases with rfl | rfl | rfl | rfl | rfl | rfl
    · rcases modalStep_marker "Countermovement_Jump" env.cmj (fun _ => 0) with
        ⟨n, hm⟩ | hm
      · exact Or.inl ⟨n, lift _ (Or.inl hm)⟩
      · exact Or.inr (lift _ (Or.inl hm))
    · rcases modalStep_marker "Nordic" env.nordic (stage1 env).1 with
        ⟨n, hm⟩ | hm
      · exact Or.inl ⟨n, lift _ (Or.inr (Or.inl hm))⟩
      · exact Or.inr (lift _ (Or.inr (Or.inl hm)))
    · rcases modalStep_marker "20yd_Sprint" env.sprint (stage2 env).1 with
        ⟨n, hm⟩ | hm
      · exact Or.inl ⟨n, lift _ (Or.inr (Or.inr (Or.inl hm)))⟩
      · exact Or.inr (lift _ (Or.inr (Or.inr (Or.inl hm))))
    · rcases modalStep_marker "5-0-5_Drill" env.drill (stage3 env).1 with
        ⟨n, hm⟩ | hm
      · exact Or.inl ⟨n, lift _ (Or.inr (Or.inr (Or.inr (Or.inl hm))))⟩
      · exact Or.inr (lift _ (Or.inr (Or.inr (Or.inr (Or.inl hm)))))
    · rcases cardStep_marker "Overhead Squat" ht_labels env.ohs (stage4 env).1
        with ⟨n, hm⟩ | hm
      · exact Or.inl ⟨n, lift _ (Or.inr (Or.inr (Or.inr (Or.inr (Or.inl hm)))))⟩
      · exact Or.inr (lift _ (Or.inr (Or.inr (Or.inr (Or.inr (Or.inl hm))))))
    · rcases anyStep_marker "Lunge/Lunges" ht_labels
        [("Lunge", env.lunge), ("Lunges", env.lunges)] (stage5 env).1 with
        ⟨n, hm⟩ | hm
      · exact Or.inl ⟨n,
          lift _ (Or.inr (Or.inr (Or.inr (Or.inr (Or.inr hm)))))⟩
      · exact Or.inr (lift _ (Or.inr (Or.inr (Or.inr (Or.inr (Or.inr hm))))))
  · intro hno
    obtain ⟨m, hex⟩ := take_screens_exactDelta env hno
    have hcont := (take_screens_goodDelta env).2
    have hnodup : checkKeys.Nodup := by decide
    have hpart := length_filter_partition checkKeys hnodup
      (take_screens_for_athlete env).files hcont
    have hlen : ∀ p ∈ checkKeys,
        (idxsFor p (take_screens_for_athlete env).files).length =
          (take_screens_for_athlete env).ctr p := by
      intro p _
      rw [hex p, List.length_range']
      simp
    rw [show (take_screens_for_athlete env).total =
        (checkKeys.map (take_screens_for_athlete env).ctr).sum from rfl]
    rw [hpart, List.map_congr_left hlen]

/-- Athlete run in which the CMJ modal settles at zero accordion sections and
the fallback whole-modal screenshot raises after the counter increment. -/
def badReportEnv : AthleteEnv :=
  { cmj :=
      { openOk := true, closeOk := true
        modal := { counts := fun _ => 0, fallback := FallbackOutcome.shotFail,
                   sections := fun _ => SectionOutcome.failEarly } }
    nordic := inertModal
    sprint := inertModal
    drill := inertModal
    ohs := inertCardEnv
    lunge := inertCardEnv
    lunges := inertCardEnv }

/-- C7 counterexample: the claim says the orchestrator reports the total
number of images produced.  The code reports `sum(counters.values())`, which
counts counter increments, not written files: in `badReportEnv` the CMJ
fallback screenshot raises after its increment, so the run reports a total of
1 while zero images were written. -/
theorem C7_counterexample :
    ¬ (∀ env : AthleteEnv,
        (take_screens_for_athlete env).total =
          (take_screens_for_athlete env).files.length) := by
  intro h
  have hx := h badReportEnv
  have h1 : (take_screens_for_athlete badReportEnv).total = 1 := by decide
  have h2 : (take_screens_for_athlete badReportEnv).files.length = 0 := by decide
  rw [h1, h2] at hx
  exact nomatch hx

/-- Witness for C7's amended theorem on the all-success run. -/
theorem C7_steps_witness :
    ("Nordic" ∈ checklistLabels ∧
      ((∃ n, Ev.stepDone "Nordic" n ∈ (take_screens_for_athlete okEnv).trace) ∨
        Ev.stepWarn "Nordic" ∈ (take_screens_for_athlete okEnv).trace)) ∧
    (okEnv.noPostInc ∧
      (take_screens_for_athlete okEnv).total =
        (take_screens_for_athlete okEnv).files.length) := by
  have hno : okEnv.noPostInc :=
    ⟨⟨by decide, fun i h => nomatch h⟩, ⟨by decide, fun i h => nomatch h⟩,
     ⟨by decide, fun i h => nomatch h⟩, ⟨by decide, fun i h => nomatch h⟩⟩
  refine ⟨⟨by decide, ?_⟩, hno, ?_⟩
  · exact (C7_steps_isolated_and_total okEnv).1 "Nordic" (by decide)
  · exact (C7_steps_isolated_and_total okEnv).2 hno

/-- C9: a profile row whose display name contains a decimal digit is skipped
entirely — the walker state is unchanged: no directory created, no capture
attempted, nothing recorded; a name without a digit is not skipped by this
rule: unless it is a duplicate of an already-processed athlete, its directory
is created and its capture attempted. -/
theorem C9_digit_names_skipped (st : WalkSt) (name : String) (captureOk : Bool) :
    (containsDigit name = true → walkRow st name captureOk = st) ∧
    (containsDigit name = false →
      sanitize_filename name ∉ st.processed →
      (walkRow st name captureOk).dirsCreated =
        st.dirsCreated ++ [sanitize_filename name] ∧
      (walkRow st name captureOk).capturesAttempted =
        st.capturesAttempted ++ [sanitize_filename name]) := by
  constructor
  · intro h
    unfold walkRow
    rw [if_pos h]
  · intro h hdup
    unfold walkRow
    rw [if_neg (by simp [h])]
    dsimp only
    rw [if_neg hdup]
    by_cases hc : captureOk = true
    · rw [if_pos hc]
      exact ⟨rfl, rfl⟩
    · rw [if_neg hc]
      exact ⟨rfl, rfl⟩

/-- Witness for C9 on an ASCII test-profile name, a name carrying a
fullwidth (non-ASCII Unicode) digit, and a digit-free name. -/
theorem C9_digit_names_witness :
    (containsDigit "Test Athlete 123" = true ∧
      walkRow ⟨[], [], []⟩ "Test Athlete 123" true = ⟨[], [], []⟩) ∧
    (containsDigit "Tanaka０" = true ∧
      walkRow ⟨[], [], []⟩ "Tanaka０" true = ⟨[], [], []⟩) ∧
    (containsDigit "Jane Smith" = false ∧
      (walkRow ⟨[], [], []⟩ "Jane Smith" true).capturesAttempted =
        [] ++ [sanitize_filename "Jane Smith"]) :=
  ⟨⟨by decide,
    (C9_digit_names_skipped ⟨[], [], []⟩ "Test Athlete 123" true).1 (by decide)⟩,
   ⟨by decide,
    (C9_digit_names_skipped ⟨[], [], []⟩ "Tanaka０" true).1 (by decide)⟩,
   ⟨by decide,
    ((C9_digit_names_skipped ⟨[], [], []⟩ "Jane Smith" true).2 (by decide)
      (by decide)).2⟩⟩

end Vald
